import Mathlib

/-!
Verification development for the YNAB4-to-Firefly-III importer
(`ynab4_firefly_exporter/main.py`).

The Python source is shallowly embedded: `Decimal` amounts become `ℚ`,
`arrow.Arrow` dates become the record `MDate` (the program only ever uses
the calendar date and `replace(day=1)`), Python dicts become association
lists with insertion-order update semantics (`alookup` / `aupdate`), and
fallible code (assertions, IndexError, decimal conversion errors) returns
`Except String`.  The lazily-computed forex amount
(`Union[Decimal, Callable[[], Decimal]]`) is embedded as the inductive
`FAmount`: `.val` for a resolved `Decimal`, `.lazyRate code amount date`
for the closure `partial(forex_calculator, code, amount, date)`.

The two regular expressions of the source (`MEMO_RE` and `AMOUNT_RE`) are
embedded as explicit backtracking matchers over `List Char` that follow
Python's leftmost / greedy semantics token by token; the places where a
greedy quantifier can be realised by maximal munch (because the following
token cannot consume the same characters, or because the continuation
matches every string) are noted at the definitions.
-/

/-- Calendar date (year, month, day); `arrow.Arrow` as used by the program. -/
structure MDate where
  y : Nat
  m : Nat
  d : Nat
deriving DecidableEq, Repr

/-- Chronological order on dates, lexicographic on (year, month, day). -/
def dateLe (a b : MDate) : Bool :=
  decide (a.y < b.y) || (decide (a.y = b.y) &&
    (decide (a.m < b.m) || (decide (a.m = b.m) && decide (a.d ≤ b.d))))

/-- Foreign amount: a resolved `Decimal`, or the lazy closure
`partial(forex_calculator, currency_code, amount, date)` built by
`YNABTransaction.fix_foreign` when no memo annotation is found. -/
inductive FAmount where
  | val (q : ℚ)
  | lazyRate (code : String) (amount : ℚ) (date : MDate)
deriving DecidableEq, Repr

/-- One row of the YNAB register (`YNABTransaction`).  `forced_transfer`
models the `YNABTransferTransaction` subclass, whose `is_transfer`
property is overridden to `True` after `fix_transfer` rewrites the payee. -/
structure YNABTx where
  account : String
  flag : String
  date : MDate
  payee : String
  category : String
  master_category : String
  sub_category : String
  memo : String
  outflow : ℚ
  inflow : ℚ
  cleared : String
  running_balance : ℚ
  foreign_amount : Option FAmount := none
  foreign_currency : Option String := none
  forced_transfer : Bool := false
deriving DecidableEq, Repr

/-- Which YNAB column `category_field` / `budget_field` selects. -/
inductive YField where
  | category
  | masterCategory
  | subCategory
deriving DecidableEq, Repr

/-- Per-account configuration (`Config.Account`); only the currency code is
consulted by the processing core (role / payment date / inactive feed the
account-creation step, which no claim is about). -/
structure AccountCfg where
  currency : String := ""
deriving DecidableEq, Repr, Inhabited

/-- Application configuration (`Config`), restricted to the fields read by
the transaction-processing core. -/
structure Config where
  accounts : List (String × AccountCfg) := []
  currency : String := "USD"
  payee_mapping : List (String × String) := []
  budget_mapping : List (String × String) := []
  category_field : YField := .subCategory
  budget_field : YField := .subCategory
  memo_to_description : Bool := true
  empty_description : String := "(empty description)"
deriving DecidableEq, Repr

/-- Association-list lookup; Python `dict.get`. -/
def alookup {κ α : Type} [DecidableEq κ] : List (κ × α) → κ → Option α
  | [], _ => none
  | (k, v) :: rest, k' => if k = k' then some v else alookup rest k'

/-- Association-list store; Python `dict.__setitem__` (replace in place,
else append, preserving insertion order). -/
def aupdate {κ α : Type} [DecidableEq κ] : List (κ × α) → κ → α → List (κ × α)
  | [], k, v => [(k, v)]
  | (k', v') :: rest, k, v =>
      if k' = k then (k, v) :: rest else (k', v') :: aupdate rest k v

/-- Python whitespace (`\s`, also the default `str.strip` set restricted
to ASCII). -/
def isWsChar (c : Char) : Bool :=
  c = ' ' || c = '\t' || c = '\n' || c = '\r' || c = '\x0b' || c = '\x0c'

/-- Python `s.split(sep)` for a non-empty separator, by fuel-bounded
structural recursion so that concrete runs reduce inside the kernel; every
step consumes at least one character, so `fuel = length` is enough. -/
def splitOnAux (sep : List Char) : Nat → List Char → List Char → List (List Char)
  | 0, cs, acc => [acc.reverse ++ cs]
  | fuel + 1, cs, acc =>
      match cs with
      | [] => [acc.reverse]
      | c :: rest =>
          if sep.isPrefixOf (c :: rest) then
            acc.reverse :: splitOnAux sep fuel ((c :: rest).drop sep.length) []
          else splitOnAux sep fuel rest (c :: acc)

/-- Python `s.split(sep)` on strings. -/
def pySplit (s sep : String) : List String :=
  (splitOnAux sep.data s.data.length s.data []).map String.mk

/-- Python `s.strip()` (restricted to the ASCII whitespace above). -/
def pyStrip (s : String) : String :=
  String.mk (((s.data.dropWhile isWsChar).reverse.dropWhile isWsChar).reverse)

/-- Python `needle in haystack` on strings (substring test). -/
def containsSub (needle hay : String) : Bool :=
  hay.data.tails.any (fun t => needle.data.isPrefixOf t)

/-- Decidable equality for `Except`, needed so concrete runs can be settled
with `decide`. -/
instance {ε α : Type} [DecidableEq ε] [DecidableEq α] : DecidableEq (Except ε α) := fun a b =>
  match a, b with
  | .error x, .error y =>
      match decEq x y with
      | .isTrue h => .isTrue (by rw [h])
      | .isFalse h => .isFalse (by intro hh; injection hh; exact h (by assumption))
  | .error _, .ok _ => .isFalse (by intro hh; exact Except.noConfusion hh)
  | .ok _, .error _ => .isFalse (by intro hh; exact Except.noConfusion hh)
  | .ok x, .ok y =>
      match decEq x y with
      | .isTrue h => .isTrue (by rw [h])
      | .isFalse h => .isFalse (by intro hh; injection hh; exact h (by assumption))

/-- Test that an `Except` computation succeeded. -/
def isOkE {ε α : Type} : Except ε α → Bool
  | .ok _ => true
  | .error _ => false

/-- Test that an `Except` computation failed. -/
def isErrorE {ε α : Type} : Except ε α → Bool
  | .ok _ => false
  | .error _ => true

-- Digit-string to number, e.g. for the captured groups of the regexes.

def digitsToNat : List Char → Nat :=
  List.foldl (fun n c => n * 10 + (c.toNat - '0'.toNat)) 0

/-- Python `Decimal(s)` on a sign-free numeral: digits with at most one
decimal point and at least one digit; anything else raises
`InvalidOperation`, embedded as `none`. -/
def parseDec (cs : List Char) : Option ℚ :=
  match cs.splitOn '.' with
  | [intPart] =>
      if intPart ≠ [] && intPart.all Char.isDigit then
        some ((digitsToNat intPart : ℚ))
      else none
  | [intPart, fracPart] =>
      if (intPart ≠ [] || fracPart ≠ []) && intPart.all Char.isDigit && fracPart.all Char.isDigit then
        some ((digitsToNat intPart : ℚ) + (digitsToNat fracPart : ℚ) / ((10 : ℚ) ^ fracPart.length))
      else none
  | _ => none

/-- Character class `[0-9,.]` of `AMOUNT_RE`. -/
def isAmountClassChar (c : Char) : Bool :=
  c.isDigit || c = ',' || c = '.'

/-- Anchored tail `([0-9,.]+)$` of `AMOUNT_RE`: the whole remainder must be
a non-empty run of class characters. -/
def tryAmountTail (cs : List Char) : Option (List Char) :=
  if cs ≠ [] && cs.all isAmountClassChar then some cs else none

/-- Greedy `[^0-9]*([0-9,.]+)$` of `AMOUNT_RE` with backtracking: at each
non-digit character the matcher first extends the junk run and only on
failure lets the captured group start there; a digit forces the group to
start.  Returns group 2. -/
def junkThenAmount : List Char → Option (List Char)
  | [] => none
  | c :: rest =>
      if c.isDigit then tryAmountTail (c :: rest)
      else
        match junkThenAmount rest with
        | some g => some g
        | none => tryAmountTail (c :: rest)

/-- Full `AMOUNT_RE` = `^(-)?[^0-9]*([0-9,.]+)$`.  The optional leading
minus is greedy: it is taken if present, and given back (the `-` is then
consumed by `[^0-9]*`) only if the rest cannot match — which, since `-` is
itself a non-digit, happens exactly when the whole string cannot match.
Returns (group 1 matched, group 2). -/
def amountMatch (cs : List Char) : Option (Bool × List Char) :=
  if cs.headD ' ' = '-' then
    match junkThenAmount cs.tail with
    | some g => some (true, g)
    | none => (junkThenAmount cs).map (fun g => (false, g))
  else (junkThenAmount cs).map (fun g => (false, g))

/-- Embedding of `_to_amount`: match `AMOUNT_RE`, strip commas from group 2,
convert with `Decimal`, negate if group 1 matched.  A failed match is the
`assert m` with the offending raw value in the message; a failed `Decimal`
conversion is the (message-free) `InvalidOperation`. -/
def toAmount (s : String) : Except String ℚ :=
  match amountMatch s.data with
  | none => .error ("Invalid value with no amount: |" ++ s ++ "|")
  | some (neg, g2) =>
      match parseDec (g2.filter (fun c => c ≠ ',')) with
      | none => .error "InvalidOperation: conversion syntax"
      | some q => .ok (if neg then -q else q)

/-- Specification-side description of the shape `AMOUNT_RE` accepts,
written from the amended claim rather than translated from the source;
the claim theorem proves it equal to the source-translated matcher.  If
the body contains a digit, the match succeeds exactly when every
character from the first digit to the end of the string is a digit,
comma or period, and it captures that suffix; if the body contains no
digit, the match succeeds exactly when the body ends with a comma or
period, and it captures that single final separator. -/
def amountGroupSpec (cs : List Char) : Option (List Char) :=
  if cs.any Char.isDigit then
    if (cs.dropWhile (fun c => !c.isDigit)).all isAmountClassChar then
      some (cs.dropWhile (fun c => !c.isDigit))
    else none
  else
    match cs.getLast? with
    | none => none
    | some c => if isAmountClassChar c then some [c] else none

/-- Specification-side description of `_to_amount`, written from the
amended claim (the claim theorem proves it equal to `toAmount` on every
string): consume an optional leading minus sign, match the remaining body
against `amountGroupSpec`, convert the captured text with commas removed
as a decimal, negating if the minus was consumed; a failed match aborts
with the offending raw value in the message, a failed conversion aborts
with a bare conversion error. -/
def toAmountSpec (s : String) : Except String ℚ :=
  if s.data.headD ' ' = '-' then
    match amountGroupSpec s.data.tail with
    | none => .error ("Invalid value with no amount: |" ++ s ++ "|")
    | some g2 =>
        match parseDec (g2.filter (fun c => c ≠ ',')) with
        | none => .error "InvalidOperation: conversion syntax"
        | some q => .ok (-q)
  else
    match amountGroupSpec s.data with
    | none => .error ("Invalid value with no amount: |" ++ s ++ "|")
    | some g2 =>
        match parseDec (g2.filter (fun c => c ≠ ',')) with
        | none => .error "InvalidOperation: conversion syntax"
        | some q => .ok q

/-- Character class `[0-9,\\.]` of `MEMO_RE` (digits, comma, backslash and —
because the `.` stands after an escaped backslash inside the class — any
literal dot). -/
def isMemoNumChar (c : Char) : Bool :=
  c.isDigit || c = ',' || c = '\\' || c = '.'

/-- Character class `[A-Z]` of `MEMO_RE`. -/
def isUpperAZ (c : Char) : Bool :=
  'A' ≤ c && c ≤ 'Z'

/-- Tokens `\s+([0-9,\\.]+)(K)?;?(.*)?$` of `MEMO_RE` anchored at the
current position.  The greedy `\s+` and `[0-9,\\.]+` are realised by
maximal munch: whitespace and the numeric class are disjoint, so a shorter
whitespace run can never rescue a failed match, and everything after the
numeric group matches any remainder, so its maximal run always succeeds.
`(K)?` and `;?` are likewise safely greedy.  Returns (group 2, group 3
matched, group 4). -/
def memoAfterCode : List Char → Option (List Char × Bool × List Char)
  | [] => none
  | c :: rest =>
      if isWsChar c then
        let r1 := rest.dropWhile isWsChar
        let g2 := r1.takeWhile isMemoNumChar
        let r2 := r1.dropWhile isMemoNumChar
        if g2 = [] then none
        else
          match r2 with
          | 'K' :: r3 =>
              match r3 with
              | ';' :: r4 => some (g2, true, r4)
              | _ => some (g2, true, r3)
          | ';' :: r4 => some (g2, false, r4)
          | _ => some (g2, false, r2)
      else none

/-- Tokens `([A-Z]{3})\s+([0-9,\\.]+)(K)?;?(.*)?$` of `MEMO_RE` anchored at
the current position.  Returns (group 1, group 2, group 3 matched,
group 4). -/
def memoCore : List Char → Option (List Char × List Char × Bool × List Char)
  | a :: b :: c :: rest =>
      if isUpperAZ a && isUpperAZ b && isUpperAZ c then
        (memoAfterCode rest).map (fun g => ([a, b, c], g))
      else none
  | _ => none

/-- Full `MEMO_RE` = `^.*([A-Z]{3})\s+([0-9,\\.]+)(K)?;?(.*)?$`: the
leading `.*` is greedy, so the latest position at which the rest of the
pattern matches wins — the matcher recurses into the tail before trying
the current position. -/
def memoMatch : List Char → Option (List Char × List Char × Bool × List Char)
  | [] => none
  | c :: rest =>
      match memoMatch rest with
      | some r => some r
      | none => memoCore (c :: rest)

/-- `Config.account`: per-account configuration with defaulting. -/
def Config.accountCfg (cfg : Config) (acc : String) : AccountCfg :=
  (alookup cfg.accounts acc).getD {}

/-- `Config.is_foreign`: the account has a configured currency different
from the default currency. -/
def Config.isForeign (cfg : Config) (acc : String) : Bool :=
  (cfg.accountCfg acc).currency ≠ "" && (cfg.accountCfg acc).currency ≠ cfg.currency

/-- `YNABTransaction.is_transfer` (with the `YNABTransferTransaction`
override folded in through `forced_transfer`). -/
def isTransfer (tx : YNABTx) : Bool :=
  tx.forced_transfer || containsSub "Transfer : " tx.payee

/-- `YNABTransaction.transfer_account`: recover the counterparty account
name from the payee text; a missing split component is Python's
`IndexError`. -/
def transferAccount (tx : YNABTx) : Except String String :=
  if containsSub " / Transfer : " tx.payee then
    match (pySplit tx.payee " / ")[1]? with
    | none => .error "IndexError: list index out of range"
    | some part =>
        match (pySplit part " : ")[1]? with
        | none => .error "IndexError: list index out of range"
        | some acc => .ok acc
  else
    match (pySplit tx.payee " : ")[1]? with
    | none => .error "IndexError: list index out of range"
    | some acc => .ok acc

/-- `YNABTransaction.fix_transfer`: reorient a transfer leg so that the
record's `account` is the side money leaves and `payee` is the receiving
account; the result is a `YNABTransferTransaction` (`forced_transfer`). -/
def fixTransfer (tx : YNABTx) : Except String YNABTx :=
  if !isTransfer tx then .ok tx
  else
    match transferAccount tx with
    | .error e => .error e
    | .ok accountFromPayee =>
        if tx.outflow > 0 then
          .ok { tx with payee := accountFromPayee, forced_transfer := true }
        else
          .ok { tx with account := accountFromPayee, payee := tx.account,
                        outflow := tx.inflow, inflow := tx.outflow, forced_transfer := true }

/-- `YNABTransaction.fix_foreign`: resolve the foreign amount of a leg
touching a foreign-currency account, from the memo annotation if its
currency code matches, otherwise as a lazy rate computation; the `assert`
on a transfer between two foreign accounts with different currencies is a
fatal error. -/
def fixForeign (cfg : Config) (tx : YNABTx) : Except String YNABTx :=
  if !cfg.isForeign tx.account && !cfg.isForeign tx.payee then .ok tx
  else if isTransfer tx && cfg.isForeign tx.account && cfg.isForeign tx.payee
      && (cfg.accountCfg tx.account).currency ≠ (cfg.accountCfg tx.payee).currency then
    .error "Cannot handle transaction between two different foreign accounts"
  else
    let foreignAccount := if cfg.isForeign tx.account then tx.account else tx.payee
    let code := (cfg.accountCfg foreignAccount).currency
    match memoMatch tx.memo.data with
    | some (g1, g2, _, g4) =>
        if String.mk g1 = code then
          match parseDec (g2.filter (fun c => c ≠ ',')) with
          | none => .error "InvalidOperation: conversion syntax"
          | some amount0 =>
              let amount := if String.mk g2 = "K" then amount0 * 1000 else amount0
              .ok { tx with foreign_amount := some (.val amount),
                            foreign_currency := some code,
                            memo := pyStrip (String.mk g4) }
        else
          let lazyAmt : FAmount := .lazyRate code (if tx.inflow ≠ 0 then tx.inflow else tx.outflow) tx.date
          .ok { tx with foreign_amount := some lazyAmt, foreign_currency := some code }
    | none =>
        let lazyAmt : FAmount := .lazyRate code (if tx.inflow ≠ 0 then tx.inflow else tx.outflow) tx.date
        .ok { tx with foreign_amount := some lazyAmt, foreign_currency := some code }

/-- Selection of the configured YNAB column (`getattr(tx, field_name)`). -/
def fieldGet : YField → YNABTx → String
  | .category, tx => tx.category
  | .masterCategory, tx => tx.master_category
  | .subCategory, tx => tx.sub_category

/-- `Importer._budget`: budget name of a record — configured column, hidden
categories re-derived from the backtick-delimited fragment, then the
budget rename table, keyed by the raw `Category` column. -/
def budgetOf (cfg : Config) (tx : YNABTx) : Except String String :=
  let raw := fieldGet cfg.budget_field tx
  match
    (if tx.master_category = "Hidden Categories" then
      match (pySplit raw "`")[1]? with
      | none => Except.error "IndexError: list index out of range"
      | some frag => Except.ok (pyStrip frag ++ " (hidden)")
    else Except.ok raw) with
  | .error e => .error e
  | .ok b => .ok ((alookup cfg.budget_mapping tx.category).getD (pyStrip b))

/-- `Importer._category`: category name of a record (configured column). -/
def categoryOf (cfg : Config) (tx : YNABTx) : String :=
  fieldGet cfg.category_field tx

/-- `Importer._payee`: payee with the rename table applied. -/
def payeeOf (cfg : Config) (tx : YNABTx) : String :=
  (alookup cfg.payee_mapping (pyStrip tx.payee)).getD (pyStrip tx.payee)

/-- `Importer._description`: memo-derived description, with the
`"(Split i/n)"` prefix cut at the first `)` (a missing `)` is Python's
`IndexError`) and the configured fallback for an empty result. -/
def descriptionOf (cfg : Config) (tx : YNABTx) : Except String String :=
  if !cfg.memo_to_description then .ok cfg.empty_description
  else
    let memo := pyStrip tx.memo
    if containsSub "(Split" memo then
      match (pySplit memo ")")[1]? with
      | none => .error "IndexError: list index out of range"
      | some rest =>
          let memo := pyStrip rest
          .ok (if memo = "" then cfg.empty_description else memo)
    else .ok (if memo = "" then cfg.empty_description else memo)

/-- `Importer._notes`: the memo lands in the notes exactly when it is not
used as the description. -/
def notesOf (cfg : Config) (tx : YNABTx) : String :=
  if !cfg.memo_to_description then pyStrip tx.memo else ""

/-- `Importer._tags`: the flag, when present. -/
def tagsOf (tx : YNABTx) : List String :=
  if tx.flag ≠ "" then [tx.flag] else []

/-- `Importer._amount`: foreign accounts must carry a resolved (truthy)
foreign amount — `assert tx.foreign_amount` fails on `None` and on a
resolved `Decimal(0)`, while the lazy closure is always truthy; other
accounts use `outflow or inflow`. -/
def amountOf (cfg : Config) (tx : YNABTx) : Except String FAmount :=
  if cfg.isForeign tx.account then
    match tx.foreign_amount with
    | none => .error "AssertionError: missing foreign amount"
    | some (.val q) =>
        if q = 0 then .error "AssertionError: missing foreign amount" else .ok (.val q)
    | some fa => .ok fa
  else .ok (.val (if tx.outflow ≠ 0 then tx.outflow else tx.inflow))

/-- One Firefly line item
(`ImportData.TransactionGroup.{Withdrawal, Deposit, Transfer}`).  The
`external_id` is `str(tx.running_balance)`; it is kept as the underlying
number here. -/
inductive FFTx where
  | withdrawal (account payee : String) (date : MDate) (amount : FAmount)
      (description notes : String) (budget category : String)
      (tags : List String) (reconciled : Bool) (external_id : ℚ)
  | deposit (account payee : String) (date : MDate) (amount : FAmount)
      (description notes : String) (budget category : String)
      (tags : List String) (reconciled : Bool) (external_id : ℚ)
  | transfer (from_account to_account : String) (date : MDate) (amount : FAmount)
      (description notes : String) (foreign_amount : Option FAmount)
      (foreign_currency_code : Option String)
      (tags : List String) (reconciled : Bool) (external_id : ℚ)
deriving DecidableEq, Repr

/-- Discriminate the `Transfer` variant. -/
def isTransferItem : FFTx → Bool
  | .transfer .. => true
  | _ => false

/-- Source account of a `Transfer` item. -/
def ffFromAccount : FFTx → String
  | .transfer f _ _ _ _ _ _ _ _ _ _ => f
  | _ => ""

/-- Destination account of a `Transfer` item. -/
def ffToAccount : FFTx → String
  | .transfer _ t _ _ _ _ _ _ _ _ _ => t
  | _ => ""

/-- Lexicographic comparison of strings by code point, Python `a <= b`
(total: see `charsLe_total`). -/
def charsLe : List Char → List Char → Bool
  | [], _ => true
  | _ :: _, [] => false
  | a :: as, b :: bs => if a < b then true else if b < a then false else charsLe as bs

/-- Python `tuple(sorted([a, b]))` on two strings. -/
def sortPair (a b : String) : String × String :=
  if charsLe a.data b.data then (a, b) else (b, a)

/-- Key of the `transfers_seen_map`: sorted account pair, date, absolute
difference of outflow and inflow. -/
abbrev TKey := (String × String) × MDate × ℚ

/-- The seen-map key as computed in `Importer._process_transactions` on the
(already reoriented) transaction. -/
def transferKey (tx : YNABTx) : TKey :=
  (sortPair tx.account tx.payee, tx.date, |tx.outflow - tx.inflow|)

/-- Body of the per-record loop in `Importer._process_transactions`: fix
the transfer orientation, resolve the foreign amount, check the budget and
category against the known sets, then either de-duplicate a transfer
against the seen map or emit a withdrawal / deposit.  Returns the updated
seen map and the emitted line item, if any. -/
def processTx (cfg : Config) (budgets : List (String × Bool)) (cats : List String)
    (seen : List (TKey × Nat)) (tx0 : YNABTx) :
    Except String (List (TKey × Nat) × Option FFTx) :=
  match fixTransfer tx0 with
  | .error e => .error e
  | .ok tx1 =>
  match fixForeign cfg tx1 with
  | .error e => .error e
  | .ok tx =>
  match budgetOf cfg tx with
  | .error e => .error e
  | .ok budget =>
  match
    (if budget ≠ "" then
      match alookup budgets budget with
      | none => Except.error ("Unable to process transaction with unknown budget: |" ++ budget ++ "|")
      | some active =>
          if active then
            let c := categoryOf cfg tx
            if c ≠ "" && !cats.contains c then
              Except.error ("Unable to process transaction with unknown category: |" ++ c ++ "|")
            else Except.ok c
          else Except.ok ""
    else Except.ok "") with
  | .error e => .error e
  | .ok category =>
  let external_id := tx.running_balance
  if isTransfer tx then
    let key := transferKey tx
    let cnt := (alookup seen key).getD 0
    if cnt % 2 = 1 then .ok (aupdate seen key (cnt + 1), none)
    else
      match amountOf cfg tx with
      | .error e => .error e
      | .ok amount =>
      match descriptionOf cfg tx with
      | .error e => .error e
      | .ok descr =>
        .ok (aupdate seen key 1,
             some (.transfer tx.account tx.payee tx.date amount descr (notesOf cfg tx)
                     tx.foreign_amount tx.foreign_currency (tagsOf tx)
                     (tx.cleared = "R") external_id))
  else if tx.outflow > 0 then
    match amountOf cfg tx with
    | .error e => .error e
    | .ok amount =>
    match descriptionOf cfg tx with
    | .error e => .error e
    | .ok descr =>
      .ok (seen,
           some (.withdrawal tx.account (payeeOf cfg tx) tx.date amount descr (notesOf cfg tx)
                   budget category (tagsOf tx) (tx.cleared = "R") external_id))
  else if tx.inflow > 0 then
    match amountOf cfg tx with
    | .error e => .error e
    | .ok amount =>
    match descriptionOf cfg tx with
    | .error e => .error e
    | .ok descr =>
      .ok (seen,
           some (.deposit tx.account (payeeOf cfg tx) tx.date amount descr (notesOf cfg tx)
                   budget category (tagsOf tx) (tx.cleared = "R") external_id))
  else .error "ValueError: dunno how to handle this transaction of unknown kind"

/-- One transaction group of `Importer._process_transactions`: process the
member records in order, threading the transfer seen map, collecting the
emitted line items. -/
def processGroup (cfg : Config) (budgets : List (String × Bool)) (cats : List String)
    (seen : List (TKey × Nat)) :
    List YNABTx → Except String (List (TKey × Nat) × List FFTx)
  | [] => .ok (seen, [])
  | tx :: rest =>
      match processTx cfg budgets cats seen tx with
      | .error e => .error e
      | .ok (seen1, emitted) =>
          match processGroup cfg budgets cats seen1 rest with
          | .error e => .error e
          | .ok (seen2, items) =>
              .ok (seen2, match emitted with
                          | some i => i :: items
                          | none => items)

/-- The grouped main loop of `Importer._process_transactions`: process the
groups in order with one shared transfer seen map; a group whose surviving
item list is empty (both transfer legs already consumed elsewhere) is not
emitted. -/
def processGroups (cfg : Config) (budgets : List (String × Bool)) (cats : List String)
    (seen : List (TKey × Nat)) :
    List (List YNABTx) → Except String (List (TKey × Nat) × List (List FFTx))
  | [] => .ok (seen, [])
  | g :: gs =>
      match processGroup cfg budgets cats seen g with
      | .error e => .error e
      | .ok (seen1, items) =>
          match processGroups cfg budgets cats seen1 gs with
          | .error e => .error e
          | .ok (seen2, rest) =>
              .ok (seen2, if items = [] then rest else items :: rest)

/-- `tx.date.replace(day=1)` paired with the account: the key of the
running-balance map. -/
def monthKey (tx : YNABTx) : MDate × String :=
  (⟨tx.date.y, tx.date.m, 1⟩, tx.account)

/-- The running-balance reconstruction loop: walk the given sequence and
record the running balance of the first record seen for each
(month, account) key. -/
def buildRB (acc : List ((MDate × String) × ℚ)) :
    List YNABTx → List ((MDate × String) × ℚ)
  | [] => acc
  | tx :: rest =>
      buildRB
        (if (alookup acc (monthKey tx)).isSome then acc
         else acc ++ [(monthKey tx, tx.running_balance)]) rest

/-- The running-balance reconstructor of `Importer._process_transactions`:
replay all records in reverse input order. -/
def reconstructRB (txs : List YNABTx) : List ((MDate × String) × ℚ) :=
  buildRB [] txs.reverse

/-- Values as they appear in the attribute dictionaries compared by
`_firefly_compare`: local values are strings, numbers (`int` / `Decimal`,
both with `Decimal` numeric semantics), booleans or `arrow.Arrow` dates;
remote values additionally include JSON `null` (also the result of a
missing key). -/
inductive FVal where
  | vstr (s : String)
  | vnum (q : ℚ)
  | vbool (b : Bool)
  | vdate (d : MDate)
  | vnull
deriving DecidableEq, Repr

/-- Python `==` on the values above (`True == 1`, `None == None`, values of
unrelated types unequal). -/
def pyEq : FVal → FVal → Bool
  | .vnum a, .vnum b => decide (a = b)
  | .vnum a, .vbool b => decide (a = (if b then 1 else 0))
  | .vbool a, .vnum b => decide ((if a then (1 : ℚ) else 0) = b)
  | .vbool a, .vbool b => decide (a = b)
  | .vstr a, .vstr b => decide (a = b)
  | .vdate a, .vdate b => decide (a = b)
  | .vnull, .vnull => true
  | _, _ => false

-- Zero-padded decimal rendering, for `arrow`-style date formatting.

def padNat (width n : Nat) : String :=
  let s := toString n
  String.mk (List.replicate (width - s.length) '0') ++ s

/-- `obj.format("YYYY-MM-DD")`. -/
def formatDate (d : MDate) : String :=
  padNat 4 d.y ++ "-" ++ padNat 2 d.m ++ "-" ++ padNat 2 d.d

/-- Python `Decimal(str(v))`: numbers convert to themselves, numeric
strings (optionally signed) parse, anything else raises (`none`). -/
def decimalOfFVal : FVal → Option ℚ
  | .vnum q => some q
  | .vstr s =>
      match s.data with
      | '-' :: rest => (parseDec rest).map (fun q => -q)
      | cs => parseDec cs
  | _ => none

/-- `_firefly_compare`: dates render to `YYYY-MM-DD` and compare against
the remote value; `Decimal`s against a non-null remote convert the remote
with `Decimal(str(...))` (an unconvertible remote raises, `none`); a null
remote compares the local value against `0`; everything else is plain
`==`. -/
def fireflyCompare (v fv : FVal) : Option Bool :=
  match v with
  | .vdate d => some (pyEq (.vstr (formatDate d)) fv)
  | .vnum q =>
      if fv ≠ .vnull then (decimalOfFVal fv).map (fun r => decide (q = r))
      else some (pyEq (.vnum q) (.vnum 0))
  | _ =>
      if fv = .vnull then some (pyEq v (.vnum 0))
      else some (pyEq v fv)

/-- Remote attribute lookup `firefly_obj["attributes"].get(k)`: a missing
key is `None`. -/
def attrGet (attrs : List (String × FVal)) (k : String) : FVal :=
  (alookup attrs k).getD .vnull

/-- `_firefly_needs_update`: scan the locally-computed fields in order and
report an update as soon as one field compares unequal (a raising
comparison propagates as `none`). -/
def fireflyNeedsUpdate : List (String × FVal) → List (String × FVal) → Option Bool
  | [], _ => some false
  | (k, v) :: rest, attrs =>
      match fireflyCompare v (attrGet attrs k) with
      | none => none
      | some true => fireflyNeedsUpdate rest attrs
      | some false => some true

/-- `DUPLICATE_TX_RE` = `^Duplicate of transaction #([0-9]+)\.$`. -/
def matchDupTx (s : String) : Option Nat :=
  let pre := "Duplicate of transaction #".data
  if pre.isPrefixOf s.data then
    let rest := s.data.drop pre.length
    let core := rest.dropLast
    if rest.getLastD ' ' = '.' && core ≠ [] && core.all Char.isDigit then
      some (digitsToNat core)
    else none
  else none

/-- Python `int(s)` as used on the error-field index (digits only in
practice). -/
def parsePyInt (s : String) : Option Nat :=
  if s.data ≠ [] && s.data.all Char.isDigit then some (digitsToNat s.data) else none

/-- The loop of `_firefly_create_transaction_errors`, with its running
accumulators: classify each `field -> messages` entry of the error payload
into duplicate errors (singleton message matching `DUPLICATE_TX_RE` under
`transactions.<i>.<child>`), other per-transaction errors, and other
errors; `int()` / indexing failures and the two `assert`s are fatal. -/
def classifyGo :
    List (String × List String) → List (Nat × Nat) →
    List (Nat × List (String × List String)) → List (String × List String) →
    Except String
      (List (Nat × Nat) × List (Nat × List (String × List String)) × List (String × List String))
  | [], dups, otherTx, others => .ok (dups, otherTx, others)
  | (field, errs) :: rest, dups, otherTx, others =>
      let parts := pySplit field "."
      if parts.headD "" ≠ "transactions" then
        classifyGo rest dups otherTx (aupdate others (parts.headD "") errs)
      else
        match parts[1]? with
        | none => .error "IndexError: list index out of range"
        | some ixs =>
            match parsePyInt ixs with
            | none => .error "ValueError: invalid literal for int"
            | some ix =>
                match parts[2]? with
                | none => .error "IndexError: list index out of range"
                | some child =>
                    match errs with
                    | [msg] =>
                        match matchDupTx msg with
                        | some dupId =>
                            if (alookup otherTx ix).isSome then .error "AssertionError"
                            else classifyGo rest (aupdate dups ix dupId) otherTx others
                        | none =>
                            if (alookup dups ix).isSome then .error "AssertionError"
                            else
                              classifyGo rest dups
                                (aupdate otherTx ix (aupdate ((alookup otherTx ix).getD []) child errs))
                                others
                    | _ =>
                        if (alookup dups ix).isSome then .error "AssertionError"
                        else
                          classifyGo rest dups
                            (aupdate otherTx ix (aupdate ((alookup otherTx ix).getD []) child errs))
                            others

/-- `_firefly_create_transaction_errors` on the `errors` object of a 422
response. -/
def classifyErrors (entries : List (String × List String)) :
    Except String
      (List (Nat × Nat) × List (Nat × List (String × List String)) × List (String × List String)) :=
  classifyGo entries [] [] []

/-- The 422 branch of `Importer._create_transactions`: classify the error
payload; if anything other than duplicates was reported, re-raise (fatal);
otherwise the group is skipped and the duplicates are only logged.
Returns the duplicate map on the skip path. -/
def handleCreateErrors (entries : List (String × List String)) :
    Except String (List (Nat × Nat)) :=
  match classifyErrors entries with
  | .error e => .error e
  | .ok (dups, otherTx, others) =>
      if otherTx ≠ [] || others ≠ [] then .error "remote validation error" else .ok dups

/-- Did `fix_foreign` take the memo branch: some leg is foreign and the
memo matches `MEMO_RE` with the foreign account's currency code as
group 1. -/
def memoBranch (cfg : Config) (tx : YNABTx) : Bool :=
  (cfg.isForeign tx.account || cfg.isForeign tx.payee) &&
  (match memoMatch tx.memo.data with
   | some (g1, _, _, _) =>
       String.mk g1
         = (cfg.accountCfg (if cfg.isForeign tx.account then tx.account else tx.payee)).currency
   | none => false)

/-- The `Transfer` line item built for a (raw) transfer record by the loop
body of `_process_transactions`, for stating the dedup theorems; on the
error-free path this is exactly the emitted item. -/
def mkTransferItem (cfg : Config) (tx0 : YNABTx) : FFTx :=
  let tx := match fixTransfer tx0 with | .ok t => t | .error _ => tx0
  .transfer tx.account tx.payee tx.date
    (match amountOf cfg tx with | .ok a => a | .error _ => .val 0)
    (match descriptionOf cfg tx with | .ok d => d | .error _ => "")
    (notesOf cfg tx) tx.foreign_amount tx.foreign_currency (tagsOf tx)
    (tx.cleared = "R") tx.running_balance

/-- Every other element of a list, starting with the first (`keep = true`)
or the second (`keep = false`). -/
def everyOtherB {α : Type} : Bool → List α → List α
  | _, [] => []
  | true, a :: rest => a :: everyOtherB false rest
  | false, _ :: rest => everyOtherB true rest

/-- A transfer record that the processing loop handles without errors and
whose seen-map key is `k`: it is a transfer, its counterparty resolves,
its budget is empty, and its raw account pair / date / absolute amount
make up `k`. -/
def GoodTransfer (cfg : Config) (k : TKey) (tx : YNABTx) : Prop :=
  isTransfer tx = true ∧ budgetOf cfg tx = .ok "" ∧
  ∃ ta, transferAccount tx = .ok ta
    ∧ (sortPair tx.account ta, tx.date, |tx.outflow - tx.inflow|) = k

/-- Payload entry accepted by the duplicate-skip path: a
`transactions.<i>.<field>` key with a parseable index and a child field,
whose message list is exactly one message of the shape
`Duplicate of transaction #<id>.`. -/
def entrySingletonDup (p : String × List String) : Bool :=
  let parts := pySplit p.1 "."
  match parts[1]?, parts[2]? with
  | some ixs, some _ =>
      parts.headD "" = "transactions" && (parsePyInt ixs).isSome &&
      (match p.2 with
       | [msg] => (matchDupTx msg).isSome
       | _ => false)
  | _, _ => false

-- Concrete inputs used by the witnesses and counterexamples below.

/-- Configuration with one EUR account named Wallet (default USD). -/
def cfgEUR : Config :=
  { accounts := [("Wallet", { currency := "EUR" })] }

/-- Foreign-account record whose memo carries the `K` thousands suffix. -/
def txMemoK : YNABTx :=
  { account := "Wallet", flag := "", date := ⟨2020, 1, 5⟩, payee := "Shop",
    category := "", master_category := "", sub_category := "", memo := "EUR 5K",
    outflow := 10, inflow := 0, cleared := "", running_balance := 100 }

/-- Foreign-account record with a plain memo annotation. -/
def txMemoEUR : YNABTx :=
  { account := "Wallet", flag := "", date := ⟨2020, 1, 5⟩, payee := "Dinner",
    category := "", master_category := "", sub_category := "", memo := "EUR 45.00 dinner",
    outflow := 50, inflow := 0, cleared := "", running_balance := 100 }

/-- Foreign-account record with no memo annotation. -/
def txNoMemo : YNABTx :=
  { account := "Wallet", flag := "", date := ⟨2020, 1, 5⟩, payee := "Dinner",
    category := "", master_category := "", sub_category := "", memo := "food",
    outflow := 50, inflow := 0, cleared := "", running_balance := 100 }

/-- Configuration with two foreign accounts of different currencies. -/
def cfgTwoForeign : Config :=
  { accounts := [("Wallet", { currency := "EUR" }), ("Pounds", { currency := "GBP" })] }

/-- Transfer leg between the two foreign accounts above (as it looks after
`fix_transfer`; the raw payee carries the transfer marker). -/
def txForeignTransfer : YNABTx :=
  { account := "Wallet", flag := "", date := ⟨2020, 1, 5⟩, payee := "Transfer : Pounds",
    category := "", master_category := "", sub_category := "", memo := "",
    outflow := 100, inflow := 0, cleared := "", running_balance := 100 }

/-- Configuration whose budget column is the master category and whose
category column is the sub category. -/
def cfgSplitFields : Config :=
  { budget_field := .masterCategory, category_field := .subCategory }

/-- Expense with an empty budget column but a non-empty, unknown category
column. -/
def txUnknownCat : YNABTx :=
  { account := "Checking", flag := "", date := ⟨2020, 1, 5⟩, payee := "Shop",
    category := "Stuff: UnknownCat", master_category := "", sub_category := "UnknownCat",
    memo := "", outflow := 5, inflow := 0, cleared := "", running_balance := 100 }

/-- Expense with a non-empty budget name that the budget set does not
contain. -/
def txUnknownBudget : YNABTx :=
  { account := "Checking", flag := "", date := ⟨2020, 1, 5⟩, payee := "Shop",
    category := "Stuff: Mystery", master_category := "Stuff", sub_category := "Mystery",
    memo := "", outflow := 5, inflow := 0, cleared := "", running_balance := 100 }

/-- Configuration for the transfer-dedup witnesses: no foreign accounts,
memo not used as description. -/
def cfgPlain : Config :=
  { memo_to_description := false }

/-- Outflow leg of a Checking-to-Savings transfer of 100. -/
def txLegOut : YNABTx :=
  { account := "Checking", flag := "", date := ⟨2020, 1, 15⟩, payee := "Transfer : Savings",
    category := "", master_category := "", sub_category := "", memo := "",
    outflow := 100, inflow := 0, cleared := "", running_balance := 900 }

/-- Inflow leg of the same transfer, logged from the Savings side. -/
def txLegIn : YNABTx :=
  { account := "Savings", flag := "", date := ⟨2020, 1, 15⟩, payee := "Transfer : Checking",
    category := "", master_category := "", sub_category := "", memo := "",
    outflow := 0, inflow := 100, cleared := "", running_balance := 1100 }

/-- Two records of one account in January, in chronological order. -/
def txJan5 : YNABTx :=
  { account := "Checking", flag := "", date := ⟨2020, 1, 5⟩, payee := "Shop",
    category := "", master_category := "", sub_category := "", memo := "",
    outflow := 10, inflow := 0, cleared := "", running_balance := 90 }

/-- Chronologically later record of the same account and month. -/
def txJan20 : YNABTx :=
  { account := "Checking", flag := "", date := ⟨2020, 1, 20⟩, payee := "Shop",
    category := "", master_category := "", sub_category := "", memo := "",
    outflow := 50, inflow := 0, cleared := "", running_balance := 40 }

/-- The record produced by resolving `txNoMemo` (rate-calculator branch). -/
def txNoMemoResolved : YNABTx :=
  { txNoMemo with foreign_amount := some (.lazyRate "EUR" 50 ⟨2020, 1, 5⟩),
                  foreign_currency := some "EUR" }

theorem dateLe_refl (d : MDate) : dateLe d d = true := by
  simp [dateLe]

theorem alookup_aupdate_self {κ α : Type} [DecidableEq κ]
    (l : List (κ × α)) (k : κ) (v : α) : alookup (aupdate l k v) k = some v := by
  induction l with
  | nil => simp [aupdate, alookup]
  | cons p rest ih =>
    obtain ⟨k', v'⟩ := p
    by_cases h : k' = k
    · simp [aupdate, alookup, h]
    · simp [aupdate, alookup, h, ih]

theorem length_le_aupdate {κ α : Type} [DecidableEq κ]
    (l : List (κ × α)) (k : κ) (v : α) : l.length ≤ (aupdate l k v).length := by
  induction l with
  | nil => simp [aupdate]
  | cons p rest ih =>
    obtain ⟨k', v'⟩ := p
    by_cases h : k' = k
    · simp [aupdate, h]
    · simp only [aupdate, if_neg h, List.length_cons]
      omega

theorem aupdate_ne_nil {κ α : Type} [DecidableEq κ]
    (l : List (κ × α)) (k : κ) (v : α) : aupdate l k v ≠ [] := by
  cases l with
  | nil => simp [aupdate]
  | cons p rest =>
    obtain ⟨k', v'⟩ := p
    by_cases h : k' = k <;> simp [aupdate, h]

theorem charsLe_total (a b : List Char) : charsLe a b = true ∨ charsLe b a = true := by
  induction a generalizing b with
  | nil => left; rfl
  | cons x xs ih =>
    cases b with
    | nil => right; rfl
    | cons y ys =>
      rcases lt_trichotomy x y with h | h | h
      · left; simp [charsLe, h]
      · subst h
        rcases ih ys with h2 | h2
        · left; simp [charsLe, lt_irrefl, h2]
        · right; simp [charsLe, lt_irrefl, h2]
      · right; simp [charsLe, h]

theorem charsLe_antisymm (a b : List Char) (hab : charsLe a b = true)
    (hba : charsLe b a = true) : a = b := by
  induction a generalizing b with
  | nil =>
    cases b with
    | nil => rfl
    | cons y ys => simp [charsLe] at hba
  | cons x xs ih =>
    cases b with
    | nil => simp [charsLe] at hab
    | cons y ys =>
      rcases lt_trichotomy x y with h | h | h
      · rw [charsLe, if_neg (by exact not_lt_of_lt h), if_pos h] at hba
        exact absurd hba (by simp)
      · subst h
        rw [charsLe, if_neg (lt_irrefl x), if_neg (lt_irrefl x)] at hab hba
        rw [ih ys hab hba]
      · rw [charsLe, if_neg (by exact not_lt_of_lt h), if_pos h] at hab
        exact absurd hab (by simp)

theorem sortPair_comm (a b : String) : sortPair a b = sortPair b a := by
  unfold sortPair
  rcases h1 : charsLe a.data b.data with _ | _ <;> rcases h2 : charsLe b.data a.data with _ | _
  · rcases charsLe_total a.data b.data with h | h
    · rw [h] at h1; exact absurd h1 (by simp)
    · rw [h] at h2; exact absurd h2 (by simp)
  · simp
  · simp
  · simp only [if_pos]
    have := charsLe_antisymm a.data b.data h1 h2
    have hab : a = b := by
      cases a with
      | mk da =>
        cases b with
        | mk db => simp only at this; rw [this]
    rw [hab]

theorem junkThenAmount_cons (c : Char) (rest : List Char) :
    junkThenAmount (c :: rest) =
      (if c.isDigit then tryAmountTail (c :: rest)
       else
         match junkThenAmount rest with
         | some g => some g
         | none => tryAmountTail (c :: rest)) := rfl

theorem junkThenAmount_minus (cs : List Char) :
    junkThenAmount ('-' :: cs) = junkThenAmount cs := by
  rw [junkThenAmount_cons, if_neg (by decide : ¬(('-').isDigit = true))]
  cases h : junkThenAmount cs with
  | some g => rfl
  | none =>
    show tryAmountTail ('-' :: cs) = none
    simp [tryAmountTail, isAmountClassChar]

theorem junkThenAmount_eq_spec (cs : List Char) :
    junkThenAmount cs = amountGroupSpec cs := by
  induction cs with
  | nil => rfl
  | cons c rest ih =>
    rw [junkThenAmount_cons]
    by_cases hc : c.isDigit = true
    · have hdrop : (c :: rest).dropWhile (fun x => !x.isDigit) = c :: rest := by
        simp [List.dropWhile_cons, hc]
      have hany : (c :: rest).any Char.isDigit = true := by simp [hc]
      rw [if_pos hc]
      unfold amountGroupSpec
      rw [if_pos hany, hdrop]
      unfold tryAmountTail
      by_cases hall : (c :: rest).all isAmountClassChar = true
      · rw [if_pos (by simp [hall]), if_pos hall]
      · rw [if_neg (by simp [hall]), if_neg hall]
    · rw [if_neg hc, ih]
      have hcb : c.isDigit = false := by
        cases hcb : c.isDigit with
        | false => rfl
        | true => exact absurd hcb hc
      by_cases hd : rest.any Char.isDigit = true
      · have hdrop : (c :: rest).dropWhile (fun x => !x.isDigit)
            = rest.dropWhile (fun x => !x.isDigit) := by
          simp [List.dropWhile_cons, hcb]
        have hany : (c :: rest).any Char.isDigit = true := by simp [hd]
        by_cases hall : (rest.dropWhile (fun x => !x.isDigit)).all isAmountClassChar = true
        · have hsr : amountGroupSpec rest
              = some (rest.dropWhile (fun x => !x.isDigit)) := by
            unfold amountGroupSpec
            rw [if_pos hd, if_pos hall]
          have hsc : amountGroupSpec (c :: rest)
              = some (rest.dropWhile (fun x => !x.isDigit)) := by
            unfold amountGroupSpec
            rw [if_pos hany, hdrop, if_pos hall]
          rw [hsr, hsc]
        · have hsr : amountGroupSpec rest = none := by
            unfold amountGroupSpec
            rw [if_pos hd, if_neg hall]
          have hsc : amountGroupSpec (c :: rest) = none := by
            unfold amountGroupSpec
            rw [if_pos hany, hdrop, if_neg hall]
          rw [hsr, hsc]
          show tryAmountTail (c :: rest) = none
          have hfalse : (c :: rest).all isAmountClassChar = false := by
            cases hAll : (c :: rest).all isAmountClassChar with
            | false => rfl
            | true =>
              exfalso
              apply hall
              rw [List.all_eq_true]
              intro x hx
              exact List.all_eq_true.mp hAll x
                (List.mem_cons_of_mem _ ((List.dropWhile_sublist _).subset hx))
          simp [tryAmountTail, hfalse]
      · have hdb : rest.any Char.isDigit = false := by
          cases hdb : rest.any Char.isDigit with
          | false => rfl
          | true => exact absurd hdb hd
        cases rest with
        | nil =>
          have h0 : amountGroupSpec ([] : List Char) = none := rfl
          rw [h0]
          show tryAmountTail [c] = amountGroupSpec [c]
          by_cases hcl : isAmountClassChar c = true
          · have hl : tryAmountTail [c] = some [c] := by simp [tryAmountTail, hcl]
            have hr : amountGroupSpec [c] = some [c] := by
              simp [amountGroupSpec, hcb, hcl]
            rw [hl, hr]
          · have hl : tryAmountTail [c] = none := by simp [tryAmountTail, hcl]
            have hr : amountGroupSpec [c] = none := by
              simp [amountGroupSpec, hcb, hcl]
            rw [hl, hr]
        | cons y ys =>
          cases hgl : (y :: ys).getLast? with
          | none => exact absurd hgl (by simp)
          | some c2 =>
            have hsr : amountGroupSpec (y :: ys)
                = (if isAmountClassChar c2 then some [c2] else none) := by
              unfold amountGroupSpec
              rw [if_neg (by simp [hdb]), hgl]
            have hsc : amountGroupSpec (c :: y :: ys)
                = (if isAmountClassChar c2 then some [c2] else none) := by
              unfold amountGroupSpec
              rw [if_neg (by simp [hcb, hdb]), List.getLast?_cons_cons, hgl]
            rw [hsr, hsc]
            by_cases hcl : isAmountClassChar c2 = true
            · rw [if_pos hcl]
            · rw [if_neg hcl]
              show tryAmountTail (c :: y :: ys) = none
              have hmem : c2 ∈ y :: ys := List.mem_of_mem_getLast? hgl
              have hfalse : (c :: y :: ys).all isAmountClassChar = false := by
                cases hAll : (c :: y :: ys).all isAmountClassChar with
                | false => rfl
                | true =>
                  exact absurd
                    (List.all_eq_true.mp hAll c2 (List.mem_cons_of_mem _ hmem)) hcl
              simp [tryAmountTail, hfalse]

theorem amountMatch_minus (cs : List Char) :
    amountMatch ('-' :: cs) = (junkThenAmount cs).map (fun g => (true, g)) := by
  unfold amountMatch
  rw [if_pos (show ('-' :: cs).headD ' ' = '-' from rfl)]
  simp only [List.tail_cons]
  cases h : junkThenAmount cs with
  | some g => rfl
  | none =>
    rw [junkThenAmount_minus, h]
    rfl

/-- Claim C9 (amended): exact characterization of `_to_amount`.  The
parser consumes an optional leading minus sign; on the remaining body, if
it contains a digit it matches exactly when every character from the
first digit to the end is a digit, comma or period (capturing that
suffix), and if it contains no digit it matches exactly when the body
ends in a comma or period (capturing that one separator); the captured
text, commas removed, is then converted as a decimal and negated when the
minus was consumed.  A failed match is fatal with the raw value in the
message — so text after the number, as in `1a`, is never stripped (see
`c9_counterexample`) — and a captured text that is not a valid decimal
(pure separators, or several periods as in `1.2.3`) is fatal with a bare
conversion error. -/
theorem c9_to_amount_exact (s : String) : toAmount s = toAmountSpec s := by
  by_cases hm : s.data.headD ' ' = '-'
  · have hsd : s.data = '-' :: s.data.tail := by
      cases hd : s.data with
      | nil => rw [hd] at hm; exact absurd hm (by decide)
      | cons a b =>
        rw [hd] at hm
        simp only [List.headD_cons] at hm
        subst hm
        rfl
    have ham : amountMatch s.data
        = (junkThenAmount s.data.tail).map (fun g => (true, g)) := by
      conv_lhs => rw [hsd]
      rw [amountMatch_minus]
    unfold toAmount toAmountSpec
    rw [if_pos hm, ham, junkThenAmount_eq_spec]
    cases hsp : amountGroupSpec s.data.tail with
    | none => rfl
    | some g => rfl
  · have ham : amountMatch s.data
        = (junkThenAmount s.data).map (fun g => (false, g)) := by
      unfold amountMatch
      rw [if_neg hm]
    unfold toAmount toAmountSpec
    rw [if_neg hm, ham, junkThenAmount_eq_spec]
    cases hsp : amountGroupSpec s.data with
    | none => rfl
    | some g => rfl

/-- Claim C9, counterexample to the claim as stated: the string `1a`
contains the numeric amount `1`, and stripping every character other than
digits, separators and a leading minus would yield `1`; but the trailing
`a` makes `AMOUNT_RE` fail, so `_to_amount` aborts with the raw value
instead of returning `1`. -/
theorem c9_counterexample :
    toAmount "1a" = .error "Invalid value with no amount: |1a|" := by decide

/-- Claim C2: code bug.  The memo `EUR 5K` on a EUR account matches
`MEMO_RE` with group 3 = `K`, and both the spec and the source comment
(`thousand multiplier: 1K => 1,000`) call for the amount to be multiplied
by 1000; but the code tests `m.group(2) == "K"` — group 2 is the numeral
and can never equal `K` — so the foreign amount stays 5 instead of
becoming 5000 (the memo fragment is still stripped). -/
theorem c2_thousands_suffix_ignored :
    (fixForeign cfgEUR txMemoK).map YNABTx.foreign_amount = .ok (some (.val 5))
      ∧ (fixForeign cfgEUR txMemoK).map YNABTx.foreign_amount ≠ .ok (some (.val 5000))
      ∧ (fixForeign cfgEUR txMemoK).map YNABTx.memo = .ok "" := by
  refine ⟨by with_unfolding_all rfl, ?_, by with_unfolding_all rfl⟩
  intro h
  have h2 : (fixForeign cfgEUR txMemoK).map YNABTx.foreign_amount = .ok (some (.val 5)) := by
    with_unfolding_all rfl
  rw [h2] at h
  have : (5 : ℚ) = 5000 := by
    injection h with h3
    injection h3 with h4
    injection h4
  norm_num at this

/-- Claim C3, counterexample: on a foreign-account record whose memo
matches the annotation pattern, the first resolution stores the
memo-derived amount (45) and strips the annotation from the memo; the
second resolution therefore no longer finds the annotation and overwrites
the amount with the pending rate-based closure, so resolving twice does
not yield the same foreign amount as resolving once. -/
theorem c3_counterexample :
    ((fixForeign cfgEUR txMemoEUR).bind (fixForeign cfgEUR)).map YNABTx.foreign_amount
      ≠ (fixForeign cfgEUR txMemoEUR).map YNABTx.foreign_amount := by
  have h1 : ((fixForeign cfgEUR txMemoEUR).bind (fixForeign cfgEUR)).map YNABTx.foreign_amount
      = .ok (some (.lazyRate "EUR" 50 ⟨2020, 1, 5⟩)) := by with_unfolding_all rfl
  have h2 : (fixForeign cfgEUR txMemoEUR).map YNABTx.foreign_amount
      = .ok (some (.val 45)) := by with_unfolding_all rfl
  rw [h1, h2]
  intro h
  simp at h

/-- Claim C3 (amended): foreign-currency resolution is idempotent on every
record whose first resolution does not consume a memo annotation — the
untouched and rate-calculator branches return a record that resolves to
itself, so amount and currency agree between one and two applications;
when the memo branch is taken, the currency still agrees but the second
application replaces the memo-derived amount (see `c3_counterexample`). -/
theorem c3_idempotent_no_memo_branch (cfg : Config) (tx tx1 : YNABTx)
    (h1 : fixForeign cfg tx = .ok tx1) (h2 : memoBranch cfg tx = false) :
    fixForeign cfg tx1 = .ok tx1 := by
  by_cases hf : (!cfg.isForeign tx.account && !cfg.isForeign tx.payee) = true
  · have h1' : tx1 = tx := by
      unfold fixForeign at h1
      rw [if_pos hf] at h1
      injection h1 with h
      exact h.symm
    subst h1'
    unfold fixForeign
    rw [if_pos hf]
  · have hor : (cfg.isForeign tx.account || cfg.isForeign tx.payee) = true := by
      cases ha : cfg.isForeign tx.account with
      | true => rfl
      | false =>
        cases hb : cfg.isForeign tx.payee with
        | true => simp [hb]
        | false => exact absurd (by simp [ha, hb]) hf
    by_cases hg : (isTransfer tx && cfg.isForeign tx.account && cfg.isForeign tx.payee
        && (cfg.accountCfg tx.account).currency ≠ (cfg.accountCfg tx.payee).currency) = true
    · exfalso
      unfold fixForeign at h1
      rw [if_neg hf, if_pos hg] at h1
      exact Except.noConfusion h1
    · have h2' : (match memoMatch tx.memo.data with
        | some (g1, _, _, _) =>
            decide (String.mk g1
              = (cfg.accountCfg (if cfg.isForeign tx.account then tx.account else tx.payee)).currency)
        | none => false) = false := by
        unfold memoBranch at h2
        rw [hor] at h2
        simpa using h2
      unfold fixForeign at h1
      rw [if_neg hf, if_neg hg] at h1
      cases hm : memoMatch tx.memo.data with
      | none =>
        rw [hm] at h1
        simp only at h1
        injection h1 with h
        subst h
        simp [fixForeign, hm, hf, hg]
        intro hT ha hb
        have hT' : isTransfer tx = true := by simpa [isTransfer] using hT
        by_contra hcur
        exact hg (by simp [hT', ha, hb, hcur])
      | some g =>
        obtain ⟨g1, g2, k3, g4⟩ := g
        rw [hm] at h1 h2'
        simp only at h1
        have h2'' : decide (String.mk g1
            = (cfg.accountCfg (if cfg.isForeign tx.account then tx.account else tx.payee)).currency)
            = false := by
          simpa using h2'
        have hne := of_decide_eq_false h2''
        rw [if_neg hne] at h1
        injection h1 with h
        subst h
        simp [fixForeign, hm, hf, hg, hne]
        intro hT ha hb
        have hT' : isTransfer tx = true := by simpa [isTransfer] using hT
        by_contra hcur
        exact hg (by simp [hT', ha, hb, hcur])

theorem c3_witness : fixForeign cfgEUR txNoMemoResolved = .ok txNoMemoResolved :=
  c3_idempotent_no_memo_branch cfgEUR txNoMemo txNoMemoResolved
    (by with_unfolding_all rfl) (by decide)

/-- Claim C7: `_firefly_needs_update` reports an update exactly when some
locally-computed field compares unequal to the remote attribute under
`_firefly_compare` (given that no comparison raises), and
`_firefly_compare` implements the three normalizations of the spec: a
local date is compared through its `YYYY-MM-DD` rendering, local and
remote decimals compare numerically, and a missing or null remote value
compares equal exactly to a local zero. -/
theorem c7_needs_update_iff (obj fattrs : List (String × FVal))
    (hok : ∀ p ∈ obj, fireflyCompare p.2 (attrGet fattrs p.1) ≠ none) :
    (fireflyNeedsUpdate obj fattrs = some true
        ↔ ∃ p ∈ obj, fireflyCompare p.2 (attrGet fattrs p.1) = some false)
    ∧ (∀ d fv, fireflyCompare (.vdate d) fv = some (pyEq (.vstr (formatDate d)) fv))
    ∧ (∀ q r, fireflyCompare (.vnum q) (.vnum r) = some (decide (q = r)))
    ∧ (∀ q, fireflyCompare (.vnum q) .vnull = some (decide (q = 0))) := by
  refine ⟨?_, ?_, ?_, ?_⟩
  · induction obj with
    | nil => simp [fireflyNeedsUpdate]
    | cons p rest ih =>
      obtain ⟨k, v⟩ := p
      have hk := hok (k, v) (List.mem_cons_self _ _)
      cases hcmp : fireflyCompare v (attrGet fattrs k) with
      | none => exact absurd hcmp hk
      | some b =>
        have ih' := ih (fun p hp => hok p (List.mem_cons_of_mem _ hp))
        cases b with
        | true =>
          unfold fireflyNeedsUpdate
          rw [hcmp]
          rw [ih']
          constructor
          · rintro ⟨p, hp, hval⟩
            exact ⟨p, List.mem_cons_of_mem _ hp, hval⟩
          · rintro ⟨p, hp, hval⟩
            rcases List.mem_cons.mp hp with hph | hpt
            · subst hph
              rw [hcmp] at hval
              exact absurd hval (by simp)
            · exact ⟨p, hpt, hval⟩
        | false =>
          unfold fireflyNeedsUpdate
          rw [hcmp]
          simp only [true_iff]
          exact ⟨(k, v), List.mem_cons_self _ _, hcmp⟩
  · intro d fv
    rfl
  · intro q r
    simp [fireflyCompare, decimalOfFVal]
  · intro q
    simp [fireflyCompare, pyEq]

theorem c7_witness : fireflyNeedsUpdate [("amount", FVal.vnum 5)] [] = some true := by
  have hcmp : fireflyCompare (FVal.vnum 5) (attrGet [] "amount") = some false := by
    with_unfolding_all rfl
  have h := (c7_needs_update_iff [("amount", FVal.vnum 5)] []
    (by
      intro p hp
      simp only [List.mem_singleton] at hp
      subst hp
      rw [hcmp]
      simp)).1
  exact h.mpr ⟨("amount", .vnum 5), by simp, hcmp⟩

theorem classifyGo_ok_iff (l : List (String × List String)) :
    ∀ d t o, (∃ d', classifyGo l d t o = .ok (d', [], []))
      ↔ (t = [] ∧ o = [] ∧ l.all entrySingletonDup = true) := by
  induction l with
  | nil =>
    intro d t o
    constructor
    · rintro ⟨d', hd⟩
      unfold classifyGo at hd
      injection hd with hd
      injection hd with h1 h2
      injection h2 with h2 h3
      exact ⟨h2, h3, rfl⟩
    · rintro ⟨ht, ho, -⟩
      subst ht
      subst ho
      exact ⟨d, rfl⟩
  | cons e rest ih =>
    obtain ⟨field, errs⟩ := e
    intro d t o
    unfold classifyGo
    by_cases htf : (pySplit field ".").headD "" ≠ "transactions"
    · rw [if_pos htf]
      rw [ih d t (aupdate o ((pySplit field ".").headD "") errs)]
      have hP : entrySingletonDup (field, errs) = false := by
        unfold entrySingletonDup
        cases h1 : (pySplit field ".")[1]? with
        | none => simp [h1]
        | some ixs =>
          cases h2 : (pySplit field ".")[2]? with
          | none => simp [h1, h2]
          | some child =>
            simp only [h1, h2]
            rw [List.headD_eq_head?] at htf
            simp [htf]
      simp [List.all_cons, hP, aupdate_ne_nil]
    · rw [if_neg htf]
      rw [not_not] at htf
      cases h1 : (pySplit field ".")[1]? with
      | none =>
        have hP : entrySingletonDup (field, errs) = false := by
          unfold entrySingletonDup
          simp [h1]
        constructor
        · rintro ⟨d', hd⟩
          simp [h1] at hd
        · rintro ⟨-, -, hall⟩
          rw [List.all_cons, hP] at hall
          exact absurd hall (by simp)
      | some ixs =>
        cases h2 : parsePyInt ixs with
        | none =>
          have hP : entrySingletonDup (field, errs) = false := by
            unfold entrySingletonDup
            cases h3 : (pySplit field ".")[2]? with
            | none => simp [h1, h3]
            | some child => simp [h1, h3, h2]
          constructor
          · rintro ⟨d', hd⟩
            simp [h1, h2] at hd
          · rintro ⟨-, -, hall⟩
            rw [List.all_cons, hP] at hall
            exact absurd hall (by simp)
        | some ix =>
          cases h3 : (pySplit field ".")[2]? with
          | none =>
            have hP : entrySingletonDup (field, errs) = false := by
              unfold entrySingletonDup
              simp [h1, h3]
            constructor
            · rintro ⟨d', hd⟩
              simp [h1, h2, h3] at hd
            · rintro ⟨-, -, hall⟩
              rw [List.all_cons, hP] at hall
              exact absurd hall (by simp)
          | some child =>
            match errs with
            | [msg] =>
              cases hdup : matchDupTx msg with
              | some dupId =>
                have hP : entrySingletonDup (field, [msg]) = true := by
                  unfold entrySingletonDup
                  simp only [h1, h3]
                  rw [List.headD_eq_head?] at htf
                  simp [htf, h2, hdup]
                cases hlk : (alookup t ix).isSome with
                | true =>
                  constructor
                  · rintro ⟨d', hd⟩
                    simp [h1, h2, h3, hdup, hlk] at hd
                  · rintro ⟨ht, -, -⟩
                    subst ht
                    simp [alookup] at hlk
                | false =>
                  have hgoal : ∀ d0 : List (Nat × Nat),
                      (∃ d', classifyGo rest d0 t o = .ok (d', [], []))
                        ↔ (t = [] ∧ o = [] ∧ rest.all entrySingletonDup = true) :=
                    fun d0 => ih d0 t o
                  constructor
                  · rintro ⟨d', hd⟩
                    simp only [h1, h2, h3, hdup, hlk] at hd
                    rw [if_neg (by simp)] at hd
                    have := (hgoal (aupdate d ix dupId)).mp ⟨d', hd⟩
                    exact ⟨this.1, this.2.1, by simp [List.all_cons, hP, this.2.2]⟩
                  · rintro ⟨ht, ho, hall⟩
                    rw [List.all_cons, hP] at hall
                    obtain ⟨d', hd⟩ := (hgoal (aupdate d ix dupId)).mpr ⟨ht, ho, by simpa using hall⟩
                    refine ⟨d', ?_⟩
                    simp only [h1, h2, h3, hdup, hlk]
                    rw [if_neg (by simp)]
                    exact hd
              | none =>
                have hP : entrySingletonDup (field, [msg]) = false := by
                  unfold entrySingletonDup
                  simp [h1, h3, hdup]
                cases hlk : (alookup d ix).isSome with
                | true =>
                  constructor
                  · rintro ⟨d', hd⟩
                    simp [h1, h2, h3, hdup, hlk] at hd
                  · rintro ⟨-, -, hall⟩
                    rw [List.all_cons, hP] at hall
                    exact absurd hall (by simp)
                | false =>
                  constructor
                  · rintro ⟨d', hd⟩
                    simp only [h1, h2, h3, hdup, hlk] at hd
                    rw [if_neg (by simp)] at hd
                    have := (ih d (aupdate t ix (aupdate ((alookup t ix).getD []) child [msg])) o).mp ⟨d', hd⟩
                    exact absurd this.1 (aupdate_ne_nil _ _ _)
                  · rintro ⟨-, -, hall⟩
                    rw [List.all_cons, hP] at hall
                    exact absurd hall (by simp)
            | [] =>
              have hP : entrySingletonDup (field, []) = false := by
                unfold entrySingletonDup
                simp [h1, h3]
              cases hlk : (alookup d ix).isSome with
              | true =>
                constructor
                · rintro ⟨d', hd⟩
                  simp [h1, h2, h3, hlk] at hd
                · rintro ⟨-, -, hall⟩
                  rw [List.all_cons, hP] at hall
                  exact absurd hall (by simp)
              | false =>
                constructor
                · rintro ⟨d', hd⟩
                  simp only [h1, h2, h3, hlk] at hd
                  rw [if_neg (by simp)] at hd
                  have := (ih d (aupdate t ix (aupdate ((alookup t ix).getD []) child [])) o).mp ⟨d', hd⟩
                  exact absurd this.1 (aupdate_ne_nil _ _ _)
                · rintro ⟨-, -, hall⟩
                  rw [List.all_cons, hP] at hall
                  exact absurd hall (by simp)
            | m1 :: m2 :: ms =>
              have hP : entrySingletonDup (field, m1 :: m2 :: ms) = false := by
                unfold entrySingletonDup
                simp [h1, h3]
              cases hlk : (alookup d ix).isSome with
              | true =>
                constructor
                · rintro ⟨d', hd⟩
                  simp [h1, h2, h3, hlk] at hd
                · rintro ⟨-, -, hall⟩
                  rw [List.all_cons, hP] at hall
                  exact absurd hall (by simp)
              | false =>
                constructor
                · rintro ⟨d', hd⟩
                  simp only [h1, h2, h3, hlk] at hd
                  rw [if_neg (by simp)] at hd
                  have := (ih d (aupdate t ix (aupdate ((alookup t ix).getD []) child (m1 :: m2 :: ms))) o).mp ⟨d', hd⟩
                  exact absurd this.1 (aupdate_ne_nil _ _ _)
                · rintro ⟨-, -, hall⟩
                  rw [List.all_cons, hP] at hall
                  exact absurd hall (by simp)

/-- Claim C8 (amended): the creation-error handler skips the group (and
only logs the reported duplicates) exactly when every entry of the
validation payload is a transaction-scoped field with a well-formed index
whose message list is exactly one message of the shape
`Duplicate of transaction #<id>.` — against any transaction child field,
not only `description`; any payload with a non-transaction-scoped message,
or with a transaction-field message list not of that exact singleton
duplicate shape, aborts the run. -/
theorem c8_duplicate_skip_iff (entries : List (String × List String)) :
    (∃ dups, handleCreateErrors entries = .ok dups)
      ↔ entries.all entrySingletonDup = true := by
  constructor
  · rintro ⟨dups, hd⟩
    unfold handleCreateErrors classifyErrors at hd
    cases hcl : classifyGo entries [] [] [] with
    | error e =>
      rw [hcl] at hd
      exact absurd hd (by simp)
    | ok trip =>
      obtain ⟨d0, t0, o0⟩ := trip
      rw [hcl] at hd
      cases t0 with
      | cons p l => simp at hd
      | nil =>
        cases o0 with
        | cons p l => simp at hd
        | nil =>
          exact ((classifyGo_ok_iff entries [] [] []).mp ⟨d0, hcl⟩).2.2
  · intro hall
    obtain ⟨d', hd⟩ := (classifyGo_ok_iff entries [] [] []).mpr ⟨rfl, rfl, hall⟩
    refine ⟨d', ?_⟩
    unfold handleCreateErrors classifyErrors
    rw [hd]
    simp

/-- Claim C8, counterexample to the claim as stated: a validation message
of the duplicate shape reported against the `amount` field (not the
`description` field) is still classified as a duplicate and the group is
skipped (`.ok`), whereas the claim requires any message that is not a
duplicate-against-description to abort the run. -/
theorem c8_counterexample :
    handleCreateErrors [("transactions.0.amount", ["Duplicate of transaction #5."])]
      = .ok [(0, 5)] := by decide

theorem alookup_append_single {κ α : Type} [DecidableEq κ]
    (acc : List (κ × α)) (k0 : κ) (v0 : α) (key : κ) :
    alookup (acc ++ [(k0, v0)]) key =
      match alookup acc key with
      | some v => some v
      | none => if k0 = key then some v0 else none := by
  induction acc with
  | nil => simp [alookup]
  | cons p rest ih =>
    obtain ⟨k1, v1⟩ := p
    by_cases h : k1 = key
    · simp [alookup, h]
    · simp only [List.cons_append, alookup, if_neg h]
      exact ih

theorem alookup_buildRB (l : List YNABTx) : ∀ (acc : List ((MDate × String) × ℚ)) key,
    alookup (buildRB acc l) key =
      match alookup acc key with
      | some v => some v
      | none => (l.find? (fun tx => monthKey tx = key)).map YNABTx.running_balance := by
  induction l with
  | nil =>
    intro acc key
    show alookup acc key = _
    cases h : alookup acc key with
    | none => simp [List.find?]
    | some v => rfl
  | cons tx rest ih =>
    intro acc key
    unfold buildRB
    by_cases hs : (alookup acc (monthKey tx)).isSome = true
    · rw [if_pos hs, ih acc key]
      cases hak : alookup acc key with
      | some v => rfl
      | none =>
        by_cases hk : monthKey tx = key
        · rw [← hk] at hak
          rw [hak] at hs
          simp at hs
        · simp [List.find?, hk]
    · rw [if_neg hs, ih (acc ++ [(monthKey tx, tx.running_balance)]) key]
      cases hak : alookup acc key with
      | some v =>
        rw [alookup_append_single, hak]
      | none =>
        rw [alookup_append_single, hak]
        by_cases hk : monthKey tx = key
        · simp [List.find?, hk]
        · simp [List.find?, hk]

theorem alookup_reconstructRB (txs : List YNABTx) (key : MDate × String) :
    alookup (reconstructRB txs) key
      = ((txs.filter (fun tx => monthKey tx = key)).getLast?).map YNABTx.running_balance := by
  unfold reconstructRB
  rw [alookup_buildRB]
  show (txs.reverse.find? (fun tx => monthKey tx = key)).map YNABTx.running_balance = _
  rw [← List.filter_head? (fun tx => decide (monthKey tx = key)) txs.reverse]
  rw [List.filter_reverse, List.head?_reverse]

theorem pairwise_getLast {α : Type} (R : α → α → Prop) :
    ∀ (l : List α), l.Pairwise R → ∀ a ∈ l, ∀ b, l.getLast? = some b → a = b ∨ R a b
  | [], _, a, ha, _, _ => absurd ha (by simp)
  | [x], _, a, ha, b, hb => by
      simp only [List.mem_singleton] at ha
      simp only [List.getLast?_singleton, Option.some.injEq] at hb
      left
      rw [ha, hb]
  | x :: y :: ys, h, a, ha, b, hb => by
      have hb' : (y :: ys).getLast? = some b := by
        rw [← List.getLast?_cons_cons]
        exact hb
      rcases List.pairwise_cons.mp h with ⟨hR, hP⟩
      rcases List.mem_cons.mp ha with rfl | hmem
      · right
        exact hR b (List.mem_of_mem_getLast? hb')
      · exact pairwise_getLast R (y :: ys) hP a hmem b hb'

/-- Claim C6: replaying the (chronologically sorted) register in reverse
and keeping the first running balance seen for each (month, account) pair
stores, for every account and month with at least one record, exactly the
running balance of a chronologically last record of that account in that
month. -/
theorem c6_running_balance (txs : List YNABTx) (m : MDate) (a : String)
    (hsorted : txs.Pairwise (fun t1 t2 => dateLe t1.date t2.date = true))
    (hex : ∃ tx ∈ txs, monthKey tx = (m, a)) :
    ∃ tx ∈ txs, monthKey tx = (m, a)
      ∧ alookup (reconstructRB txs) (m, a) = some tx.running_balance
      ∧ ∀ tx' ∈ txs, monthKey tx' = (m, a) → dateLe tx'.date tx.date = true := by
  have hne : txs.filter (fun tx => monthKey tx = (m, a)) ≠ [] := by
    obtain ⟨tx, htx, hkey⟩ := hex
    intro hnil
    have hmem : tx ∈ txs.filter (fun tx => monthKey tx = (m, a)) :=
      List.mem_filter.mpr ⟨htx, by simp [hkey]⟩
    rw [hnil] at hmem
    cases hmem
  obtain ⟨b, hb⟩ : ∃ b, (txs.filter (fun tx => monthKey tx = (m, a))).getLast? = some b := by
    cases hgl : (txs.filter (fun tx => monthKey tx = (m, a))).getLast? with
    | none => exact absurd (List.getLast?_eq_none_iff.mp hgl) hne
    | some b => exact ⟨b, rfl⟩
  have hbmem := List.mem_of_mem_getLast? hb
  have hbmem' := List.mem_filter.mp hbmem
  refine ⟨b, hbmem'.1, by simpa using hbmem'.2, ?_, ?_⟩
  · rw [alookup_reconstructRB, hb]
    rfl
  · intro tx' htx' hkey'
    have hmem' : tx' ∈ txs.filter (fun tx => monthKey tx = (m, a)) :=
      List.mem_filter.mpr ⟨htx', by simp [hkey']⟩
    have hpw : (txs.filter (fun tx => monthKey tx = (m, a))).Pairwise
        (fun t1 t2 => dateLe t1.date t2.date = true) :=
      hsorted.sublist (List.filter_sublist txs)
    rcases pairwise_getLast _ _ hpw tx' hmem' b hb with heq | hle
    · rw [heq]
      exact dateLe_refl _
    · exact hle

theorem c6_witness :
    (alookup (reconstructRB [txJan5, txJan20]) (⟨2020, 1, 1⟩, "Checking")).isSome = true := by
  obtain ⟨tx, -, -, hlk, -⟩ := c6_running_balance [txJan5, txJan20] ⟨2020, 1, 1⟩ "Checking"
    (by simp [txJan5, txJan20, dateLe])
    ⟨txJan5, by simp, by simp [monthKey, txJan5]⟩
  rw [hlk]
  rfl

theorem budgetOf_fields (cfg : Config) (tx1 tx2 : YNABTx)
    (hc : tx1.category = tx2.category) (hm : tx1.master_category = tx2.master_category)
    (hs : tx1.sub_category = tx2.sub_category) : budgetOf cfg tx1 = budgetOf cfg tx2 := by
  unfold budgetOf fieldGet
  cases cfg.budget_field <;> simp only [hc, hm, hs]

theorem categoryOf_fields (cfg : Config) (tx1 tx2 : YNABTx)
    (hc : tx1.category = tx2.category) (hm : tx1.master_category = tx2.master_category)
    (hs : tx1.sub_category = tx2.sub_category) : categoryOf cfg tx1 = categoryOf cfg tx2 := by
  unfold categoryOf fieldGet
  cases cfg.category_field <;> simp only [hc, hm, hs]

theorem fixTransfer_fields (tx tx' : YNABTx) (h : fixTransfer tx = .ok tx') :
    tx'.category = tx.category ∧ tx'.master_category = tx.master_category
      ∧ tx'.sub_category = tx.sub_category := by
  unfold fixTransfer at h
  by_cases ht : (!isTransfer tx) = true
  · rw [if_pos ht] at h
    injection h with h
    subst h
    exact ⟨rfl, rfl, rfl⟩
  · rw [if_neg ht] at h
    cases hta : transferAccount tx with
    | error e =>
      rw [hta] at h
      exact absurd h (by simp)
    | ok acc =>
      rw [hta] at h
      simp only at h
      by_cases ho : tx.outflow > 0
      · rw [if_pos ho] at h
        injection h with h
        subst h
        exact ⟨rfl, rfl, rfl⟩
      · rw [if_neg ho] at h
        injection h with h
        subst h
        exact ⟨rfl, rfl, rfl⟩

theorem fixForeign_fields (cfg : Config) (tx tx' : YNABTx) (h : fixForeign cfg tx = .ok tx') :
    tx'.category = tx.category ∧ tx'.master_category = tx.master_category
      ∧ tx'.sub_category = tx.sub_category := by
  unfold fixForeign at h
  by_cases hf : (!cfg.isForeign tx.account && !cfg.isForeign tx.payee) = true
  · rw [if_pos hf] at h
    injection h with h
    subst h
    exact ⟨rfl, rfl, rfl⟩
  · rw [if_neg hf] at h
    by_cases hg : (isTransfer tx && cfg.isForeign tx.account && cfg.isForeign tx.payee
        && (cfg.accountCfg tx.account).currency ≠ (cfg.accountCfg tx.payee).currency) = true
    · rw [if_pos hg] at h
      exact absurd h (by simp)
    · rw [if_neg hg] at h
      cases hmm : memoMatch tx.memo.data with
      | none =>
        rw [hmm] at h
        simp only at h
        injection h with h
        subst h
        exact ⟨rfl, rfl, rfl⟩
      | some g =>
        obtain ⟨g1, g2, k3, g4⟩ := g
        rw [hmm] at h
        simp only at h
        by_cases heq : String.mk g1
            = (cfg.accountCfg (if cfg.isForeign tx.account then tx.account else tx.payee)).currency
        · rw [if_pos heq] at h
          cases hpd : parseDec (g2.filter (fun c => c ≠ ',')) with
          | none =>
            rw [hpd] at h
            exact absurd h (by simp)
          | some amount0 =>
            rw [hpd] at h
            simp only at h
            injection h with h
            subst h
            exact ⟨rfl, rfl, rfl⟩
        · rw [if_neg heq] at h
          injection h with h
          subst h
          exact ⟨rfl, rfl, rfl⟩

theorem processGroup_mem_error (cfg : Config) (bs : List (String × Bool)) (cs : List String)
    (tx : YNABTx) (herr : ∀ seen, ∃ e, processTx cfg bs cs seen tx = .error e) :
    ∀ g, tx ∈ g → ∀ seen, ∃ e, processGroup cfg bs cs seen g = .error e := by
  intro g
  induction g with
  | nil =>
    intro h
    cases h
  | cons t rest ih =>
    intro hmem seen
    rcases List.mem_cons.mp hmem with rfl | hmem'
    · obtain ⟨e, he⟩ := herr seen
      refine ⟨e, ?_⟩
      unfold processGroup
      rw [he]
    · unfold processGroup
      cases hpt : processTx cfg bs cs seen t with
      | error e => exact ⟨e, rfl⟩
      | ok pr =>
        obtain ⟨seen1, item1⟩ := pr
        obtain ⟨e, he⟩ := ih hmem' seen1
        refine ⟨e, ?_⟩
        simp only [he]

theorem processGroups_mem_error (cfg : Config) (bs : List (String × Bool)) (cs : List String)
    (tx : YNABTx) (herr : ∀ seen, ∃ e, processTx cfg bs cs seen tx = .error e) :
    ∀ gs g, g ∈ gs → tx ∈ g → ∀ seen, ∃ e, processGroups cfg bs cs seen gs = .error e := by
  intro gs
  induction gs with
  | nil =>
    intro g h
    cases h
  | cons g0 rest ih =>
    intro g hg hmem seen
    rcases List.mem_cons.mp hg with rfl | hg'
    · obtain ⟨e, he⟩ := processGroup_mem_error cfg bs cs tx herr g hmem seen
      refine ⟨e, ?_⟩
      unfold processGroups
      rw [he]
    · unfold processGroups
      cases hpg : processGroup cfg bs cs seen g0 with
      | error e => exact ⟨e, rfl⟩
      | ok pr =>
        obtain ⟨seen1, items⟩ := pr
        obtain ⟨e, he⟩ := ih g hg' hmem seen1
        refine ⟨e, ?_⟩
        simp only [he]

/-- Claim C4: a transfer between two foreign-currency accounts with
different currency codes is fatal: the processing step errors (the
`assert` in `fix_foreign`) for every seen-map state, no rate conversion is
attempted, and any grouped run containing the record errors as a whole, so
no line item is ever emitted for it. -/
theorem c4_foreign_foreign_transfer_fatal (cfg : Config) (bs : List (String × Bool))
    (cs : List String) (tx : YNABTx) (ta : String)
    (ht : isTransfer tx = true)
    (hta : transferAccount tx = .ok ta)
    (hfa : cfg.isForeign tx.account = true)
    (hft : cfg.isForeign ta = true)
    (hcur : (cfg.accountCfg tx.account).currency ≠ (cfg.accountCfg ta).currency) :
    (∀ seen, ∃ e, processTx cfg bs cs seen tx = .error e)
    ∧ (∀ gs g, g ∈ gs → tx ∈ g → ∀ seen, ∃ e, processGroups cfg bs cs seen gs = .error e) := by
  have herr : ∀ seen, ∃ e, processTx cfg bs cs seen tx = .error e := by
    intro seen
    unfold processTx
    unfold fixTransfer
    rw [if_neg (by simp [ht]), hta]
    simp only
    by_cases ho : tx.outflow > 0
    · rw [if_pos ho]
      unfold fixForeign
      simp only
      rw [if_neg (by simp [hfa]), if_pos (by simp [isTransfer, hfa, hft, hcur])]
      exact ⟨_, rfl⟩
    · rw [if_neg ho]
      unfold fixForeign
      simp only
      rw [if_neg (by simp [hft]), if_pos (by simp [isTransfer, hfa, hft, Ne.symm hcur])]
      exact ⟨_, rfl⟩
  exact ⟨herr, processGroups_mem_error cfg bs cs tx herr⟩

theorem c4_witness :
    isErrorE (processTx cfgTwoForeign [] [] [] txForeignTransfer) = true := by
  obtain ⟨e, he⟩ := (c4_foreign_foreign_transfer_fatal cfgTwoForeign [] []
    txForeignTransfer "Pounds" (by decide) (by decide) (by decide) (by decide)
    (by decide)).1 []
  rw [he]
  rfl

/-- Claim C5 (amended): an unknown budget or category reference is fatal
only on the checked paths — a non-empty budget name missing from the
budget set is always fatal, and a non-empty category name missing from the
category set is fatal when the record's budget is non-empty and refers to
an active budget; when the budget is empty (or inactive) the category
reference is silently cleared instead and a line item is still emitted
(see `c5_counterexample`). -/
theorem c5_unknown_reference_fatal (cfg : Config) (bs : List (String × Bool))
    (cs : List String) (tx : YNABTx) (b : String)
    (hb : budgetOf cfg tx = .ok b)
    (hbad : (b ≠ "" ∧ alookup bs b = none)
      ∨ (b ≠ "" ∧ alookup bs b = some true ∧ categoryOf cfg tx ≠ ""
          ∧ cs.contains (categoryOf cfg tx) = false)) :
    ∀ seen, ∃ e, processTx cfg bs cs seen tx = .error e := by
  intro seen
  unfold processTx
  cases hft : fixTransfer tx with
  | error e =>
    refine ⟨e, ?_⟩
    simp only [hft]
  | ok tx1 =>
    cases hff : fixForeign cfg tx1 with
    | error e =>
      refine ⟨e, ?_⟩
      simp only [hft, hff]
    | ok tx2 =>
      obtain ⟨hc1, hm1, hs1⟩ := fixTransfer_fields tx tx1 hft
      obtain ⟨hc2, hm2, hs2⟩ := fixForeign_fields cfg tx1 tx2 hff
      have hbtx2 : budgetOf cfg tx2 = .ok b := by
        rw [budgetOf_fields cfg tx2 tx (by rw [hc2, hc1]) (by rw [hm2, hm1]) (by rw [hs2, hs1])]
        exact hb
      have hcat : categoryOf cfg tx2 = categoryOf cfg tx :=
        categoryOf_fields cfg tx2 tx (by rw [hc2, hc1]) (by rw [hm2, hm1]) (by rw [hs2, hs1])
      simp only [hft, hff, hbtx2]
      rcases hbad with ⟨hne, hlk⟩ | ⟨hne, hlk, hcne, hcmem⟩
      · rw [if_pos hne, hlk]
        exact ⟨_, rfl⟩
      · rw [if_pos hne, hlk]
        simp only [hcat]
        rw [if_pos True.intro]
        rw [if_pos (by simp [hcne]; simpa using hcmem)]
        exact ⟨_, rfl⟩

/-- Claim C5, counterexample to the claim as stated: with the budget
column configured to the (empty) master category and the category column
to the sub category, a record carrying the non-empty unknown category
`UnknownCat` is processed without any failure — the category is silently
cleared and a withdrawal line item is emitted — whereas the claim requires
the run to fail fatally before emitting. -/
theorem c5_counterexample :
    processGroups cfgSplitFields [] [] [] [[txUnknownCat]]
      = .ok ([], [[FFTx.withdrawal "Checking" "Shop" ⟨2020, 1, 5⟩ (.val 5)
          "(empty description)" "" "" "" [] false 100]]) := by
  with_unfolding_all rfl

theorem c5_witness :
    isErrorE (processTx cfgSplitFields [] [] [] txUnknownBudget) = true := by
  obtain ⟨e, he⟩ := c5_unknown_reference_fatal cfgSplitFields [] [] txUnknownBudget "Stuff"
    (by decide) (Or.inl ⟨by decide, rfl⟩) []
  rw [he]
  rfl

theorem processTx_transfer_fixed (cfg : Config) (bs : List (String × Bool)) (cs : List String)
    (k : TKey) (tx rec : YNABTx)
    (hno : ∀ a, cfg.isForeign a = false)
    (hm : cfg.memo_to_description = false)
    (hfx : fixTransfer tx = .ok rec)
    (hkt : isTransfer rec = true)
    (hb2 : budgetOf cfg rec = .ok "")
    (hkey : transferKey rec = k) :
    ∀ seen, processTx cfg bs cs seen tx =
      .ok (if (alookup seen k).getD 0 % 2 = 1
           then (aupdate seen k ((alookup seen k).getD 0 + 1), none)
           else (aupdate seen k 1, some (mkTransferItem cfg tx))) := by
  intro seen
  have hff : fixForeign cfg rec = .ok rec := by
    unfold fixForeign
    rw [if_pos (by simp [hno])]
  have hamt : amountOf cfg rec = .ok (.val (if rec.outflow ≠ 0 then rec.outflow else rec.inflow)) := by
    unfold amountOf
    rw [if_neg (by simp [hno])]
  have hdesc : descriptionOf cfg rec = .ok cfg.empty_description := by
    unfold descriptionOf
    rw [if_pos (by simp [hm])]
  unfold processTx
  simp only [hfx, hff, hb2]
  rw [if_neg (by simp)]
  simp only [if_pos hkt, hkey]
  by_cases hpar : (alookup seen k).getD 0 % 2 = 1
  · rw [if_pos hpar, if_pos hpar]
  · rw [if_neg hpar, if_neg hpar]
    simp only [hamt, hdesc, mkTransferItem, hfx]

theorem processTx_transfer_char (cfg : Config) (bs : List (String × Bool)) (cs : List String)
    (k : TKey) (tx : YNABTx) (ta : String)
    (hno : ∀ a, cfg.isForeign a = false)
    (hm : cfg.memo_to_description = false)
    (ht : isTransfer tx = true)
    (hta : transferAccount tx = .ok ta)
    (hb : budgetOf cfg tx = .ok "")
    (hk : (sortPair tx.account ta, tx.date, |tx.outflow - tx.inflow|) = k) :
    ∀ seen, processTx cfg bs cs seen tx =
      .ok (if (alookup seen k).getD 0 % 2 = 1
           then (aupdate seen k ((alookup seen k).getD 0 + 1), none)
           else (aupdate seen k 1, some (mkTransferItem cfg tx))) := by
  by_cases ho : tx.outflow > 0
  · refine processTx_transfer_fixed cfg bs cs k tx
      { tx with payee := ta, forced_transfer := true } hno hm ?_ ?_ ?_ ?_
    · unfold fixTransfer
      rw [if_neg (by simp [ht]), hta]
      simp only
      rw [if_pos ho]
    · simp [isTransfer]
    · rw [budgetOf_fields cfg { tx with payee := ta, forced_transfer := true } tx rfl rfl rfl]
      exact hb
    · exact hk
  · refine processTx_transfer_fixed cfg bs cs k tx
      { tx with account := ta, payee := tx.account, outflow := tx.inflow, inflow := tx.outflow, forced_transfer := true } hno hm ?_ ?_ ?_ ?_
    · unfold fixTransfer
      rw [if_neg (by simp [ht]), hta]
      simp only
      rw [if_neg ho]
    · simp [isTransfer]
    · rw [budgetOf_fields cfg { tx with account := ta, payee := tx.account, outflow := tx.inflow, inflow := tx.outflow, forced_transfer := true } tx rfl rfl rfl]
      exact hb
    · show (sortPair ta tx.account, tx.date, |tx.inflow - tx.outflow|) = k
      rw [sortPair_comm, abs_sub_comm]
      exact hk

theorem everyOtherB_length {α : Type} : ∀ (l : List α),
    (everyOtherB true l).length = (l.length + 1) / 2
      ∧ (everyOtherB false l).length = l.length / 2 := by
  intro l
  induction l with
  | nil => simp [everyOtherB]
  | cons a rest ih =>
    constructor
    · show (a :: everyOtherB false rest).length = (rest.length + 1 + 1) / 2
      simp only [List.length_cons, ih.2]
      omega
    · show (everyOtherB true rest).length = (rest.length + 1) / 2
      exact ih.1

theorem processGroups_transfer_run (cfg : Config) (bs : List (String × Bool)) (cs : List String)
    (k : TKey)
    (hno : ∀ a, cfg.isForeign a = false)
    (hm : cfg.memo_to_description = false) :
    ∀ (txs : List YNABTx), (∀ tx ∈ txs, GoodTransfer cfg k tx) →
      ∀ seen, ∃ s, processGroups cfg bs cs seen (txs.map (fun t => [t]))
        = .ok (s, (if (alookup seen k).getD 0 % 2 = 1
                   then everyOtherB false txs
                   else everyOtherB true txs).map (fun t => [mkTransferItem cfg t])) := by
  intro txs
  induction txs with
  | nil =>
    intro hall seen
    refine ⟨seen, ?_⟩
    by_cases hpar : (alookup seen k).getD 0 % 2 = 1
    · rw [if_pos hpar]
      simp [processGroups, everyOtherB]
    · rw [if_neg hpar]
      simp [processGroups, everyOtherB]
  | cons t rest ih =>
    intro hall seen
    obtain ⟨ht, hb, ta, hta, hk⟩ := hall t (List.mem_cons_self _ _)
    have hstep := processTx_transfer_char cfg bs cs k t ta hno hm ht hta hb hk seen
    have ih' := ih (fun tx htx => hall tx (List.mem_cons_of_mem _ htx))
    by_cases hpar : (alookup seen k).getD 0 % 2 = 1
    · rw [if_pos hpar] at hstep
      have hpar2 : ¬((alookup (aupdate seen k ((alookup seen k).getD 0 + 1)) k).getD 0 % 2 = 1) := by
        rw [alookup_aupdate_self]
        simp only [Option.getD_some]
        omega
      obtain ⟨s, hs⟩ := ih' (aupdate seen k ((alookup seen k).getD 0 + 1))
      rw [if_neg hpar2] at hs
      refine ⟨s, ?_⟩
      rw [if_pos hpar]
      show processGroups cfg bs cs seen ([t] :: rest.map (fun t => [t])) = _
      unfold processGroups processGroup
      simp only [hstep]
      unfold processGroup
      simp only [hs]
      simp [everyOtherB]
    · rw [if_neg hpar] at hstep
      have hpar2 : (alookup (aupdate seen k 1) k).getD 0 % 2 = 1 := by
        rw [alookup_aupdate_self]
        rfl
      obtain ⟨s, hs⟩ := ih' (aupdate seen k 1)
      rw [if_pos hpar2] at hs
      refine ⟨s, ?_⟩
      rw [if_neg hpar]
      show processGroups cfg bs cs seen ([t] :: rest.map (fun t => [t])) = _
      unfold processGroups processGroup
      simp only [hstep]
      unfold processGroup
      simp only [hs]
      simp [everyOtherB]

/-- Claim C10: for a sequence of transfer records sharing one dedup key,
the seen-map parity rule drops a record exactly when the stored counter is
odd when it is seen, so the odd-numbered occurrences (first, third, ...)
each emit one Transfer line item and the even-numbered occurrences are
dropped; n occurrences yield ceil(n/2) = (n+1)/2 transfers and the run
succeeds with no warning or error for a third or later occurrence. -/
theorem c10_transfer_dedup_parity (cfg : Config) (bs : List (String × Bool)) (cs : List String)
    (k : TKey) (txs : List YNABTx)
    (hno : ∀ a, cfg.isForeign a = false)
    (hm : cfg.memo_to_description = false)
    (hall : ∀ tx ∈ txs, GoodTransfer cfg k tx) :
    (∃ s, processGroups cfg bs cs [] (txs.map (fun t => [t]))
        = .ok (s, (everyOtherB true txs).map (fun t => [mkTransferItem cfg t])))
    ∧ (everyOtherB true txs).length = (txs.length + 1) / 2 := by
  have h := processGroups_transfer_run cfg bs cs k hno hm txs hall []
  rw [if_neg (by simp [alookup])] at h
  exact ⟨h, (everyOtherB_length txs).1⟩

/-- Claim C1: two transfer records sharing the dedup key (sorted account
pair, date, absolute outflow-inflow difference) yield exactly one Transfer
line item: the first occurrence is emitted in canonical orientation — the
account money leaves (the outflow side, obtained by swapping
account/counterparty and outflow/inflow when the raw outflow was zero) as
`from_account`, the receiving account as `to_account` — and the second
occurrence is dropped. -/
theorem c1_transfer_pair_dedup (cfg : Config) (bs : List (String × Bool)) (cs : List String)
    (t1 t2 : YNABTx) (ta1 ta2 : String)
    (hno : ∀ a, cfg.isForeign a = false)
    (hm : cfg.memo_to_description = false)
    (ht1 : isTransfer t1 = true) (ht2 : isTransfer t2 = true)
    (hta1 : transferAccount t1 = .ok ta1) (hta2 : transferAccount t2 = .ok ta2)
    (hb1 : budgetOf cfg t1 = .ok "") (hb2 : budgetOf cfg t2 = .ok "")
    (hkey : (sortPair t1.account ta1, t1.date, |t1.outflow - t1.inflow|)
        = (sortPair t2.account ta2, t2.date, |t2.outflow - t2.inflow|)) :
    (∃ s, processGroups cfg bs cs [] [[t1], [t2]] = .ok (s, [[mkTransferItem cfg t1]]))
    ∧ isTransferItem (mkTransferItem cfg t1) = true
    ∧ ffFromAccount (mkTransferItem cfg t1) = (if t1.outflow > 0 then t1.account else ta1)
    ∧ ffToAccount (mkTransferItem cfg t1) = (if t1.outflow > 0 then ta1 else t1.account) := by
  have hall : ∀ tx ∈ [t1, t2],
      GoodTransfer cfg (sortPair t1.account ta1, t1.date, |t1.outflow - t1.inflow|) tx := by
    intro tx htx
    rcases List.mem_cons.mp htx with rfl | htx'
    · exact ⟨ht1, hb1, ta1, hta1, rfl⟩
    · rcases List.mem_cons.mp htx' with rfl | htx''
      · exact ⟨ht2, hb2, ta2, hta2, hkey.symm⟩
      · cases htx''
  have h := processGroups_transfer_run cfg bs cs
    (sortPair t1.account ta1, t1.date, |t1.outflow - t1.inflow|) hno hm [t1, t2] hall []
  rw [if_neg (by simp [alookup])] at h
  refine ⟨by simpa [everyOtherB] using h, ?_, ?_, ?_⟩
  · rfl
  · by_cases ho : t1.outflow > 0
    · have hfx : fixTransfer t1 = .ok { t1 with payee := ta1, forced_transfer := true } := by
        unfold fixTransfer
        rw [if_neg (by simp [ht1]), hta1]
        simp only
        rw [if_pos ho]
      rw [if_pos ho]
      simp [mkTransferItem, hfx, ffFromAccount]
    · have hfx : fixTransfer t1 = .ok { t1 with account := ta1, payee := t1.account, outflow := t1.inflow, inflow := t1.outflow, forced_transfer := true } := by
        unfold fixTransfer
        rw [if_neg (by simp [ht1]), hta1]
        simp only
        rw [if_neg ho]
      rw [if_neg ho]
      simp [mkTransferItem, hfx, ffFromAccount]
  · by_cases ho : t1.outflow > 0
    · have hfx : fixTransfer t1 = .ok { t1 with payee := ta1, forced_transfer := true } := by
        unfold fixTransfer
        rw [if_neg (by simp [ht1]), hta1]
        simp only
        rw [if_pos ho]
      rw [if_pos ho]
      simp [mkTransferItem, hfx, ffToAccount]
    · have hfx : fixTransfer t1 = .ok { t1 with account := ta1, payee := t1.account, outflow := t1.inflow, inflow := t1.outflow, forced_transfer := true } := by
        unfold fixTransfer
        rw [if_neg (by simp [ht1]), hta1]
        simp only
        rw [if_neg ho]
      rw [if_neg ho]
      simp [mkTransferItem, hfx, ffToAccount]

theorem c1_witness :
    isOkE (processGroups cfgPlain [] [] [] [[txLegOut], [txLegIn]]) = true
      ∧ ffFromAccount (mkTransferItem cfgPlain txLegOut) = "Checking"
      ∧ ffToAccount (mkTransferItem cfgPlain txLegOut) = "Savings" := by
  obtain ⟨⟨s, hs⟩, -, hfrom, hto⟩ := c1_transfer_pair_dedup cfgPlain [] [] txLegOut txLegIn
    "Savings" "Checking" (fun a => rfl) rfl (by decide) (by decide) (by decide) (by decide)
    (by decide) (by decide) (by with_unfolding_all rfl)
  refine ⟨by rw [hs]; rfl, ?_, ?_⟩
  · rw [hfrom]
    simp [txLegOut]
  · rw [hto]
    simp [txLegOut]

theorem c10_witness :
    isOkE (processGroups cfgPlain [] [] [] [[txLegOut], [txLegIn], [txLegOut]]) = true
      ∧ (everyOtherB true [txLegOut, txLegIn, txLegOut]).length
          = ([txLegOut, txLegIn, txLegOut].length + 1) / 2 := by
  have hall : ∀ tx ∈ [txLegOut, txLegIn, txLegOut],
      GoodTransfer cfgPlain ((("Checking", "Savings") : String × String),
        (⟨2020, 1, 15⟩ : MDate), (100 : ℚ)) tx := by
    intro tx htx
    rcases List.mem_cons.mp htx with rfl | htx'
    · exact ⟨by decide, by decide, "Savings", by decide, by with_unfolding_all rfl⟩
    · rcases List.mem_cons.mp htx' with rfl | htx''
      · exact ⟨by decide, by decide, "Checking", by decide, by with_unfolding_all rfl⟩
      · rcases List.mem_cons.mp htx'' with rfl | htx'''
        · exact ⟨by decide, by decide, "Savings", by decide, by with_unfolding_all rfl⟩
        · cases htx'''
  obtain ⟨⟨s, hs⟩, hlen⟩ := c10_transfer_dedup_parity cfgPlain [] []
    ((("Checking", "Savings") : String × String), (⟨2020, 1, 15⟩ : MDate), (100 : ℚ))
    [txLegOut, txLegIn, txLegOut] (fun a => rfl) rfl hall
  refine ⟨?_, hlen⟩
  simp only [List.map] at hs
  rw [hs]
  rfl
